import Mathlib

/-!
Verification of `krotov/result.py` (module `krotov.result`).

The module defines the `Result` container for a Krotov optimization run and
the auxiliary routine `_plug_in_optimized_controls`, which substitutes the
optimized control fields into the nested operator structures of the control
objectives.

Embedding strategy.  The nested structures handled by the code are Python
lists whose entries are either an opaque operator object or an inner list
`[operator, control]`.  Python lists are mutable heap objects, and the claims
under scrutiny concern mutation and aliasing, so the embedding models the
heap explicitly: a `Store` maps addresses to the contents of inner lists,
opaque leaf objects (operators, control arrays, states) are identified by an
id of type `Obj`, and a nested structure is a `List HEntry` whose entries are
either a leaf object or a reference into the store.  Statements about values
(as opposed to identity) go through the resolution functions `resolveH` etc.,
which dereference the store, and through a pure mirror of the substitution
loop (`purePlugLoop`), related to the stateful code by a simulation argument.

All Python fallible operations (indexing, item assignment) are modelled in
the `Except String` monad, mirroring the exceptions (`IndexError`,
`TypeError`) that CPython would raise at the same program points.
-/

namespace Krotov

/-- Identity of an opaque Python object (an operator, a control array, a
state, ...).  Leaf objects are never mutated by the code under study, so an
id is enough to track both identity and value. -/
abbrev Obj := Nat

/-- Address of a mutable inner list (an `[operator, control]` pair) in the
store. -/
abbrev Addr := Nat

/-- Entry of a nested operator structure: either an opaque leaf object
(a fixed operator) or a reference to a mutable inner list. -/
inductive HEntry where
  | atom : Obj → HEntry
  | pair : Addr → HEntry
deriving DecidableEq, Repr

/-- Heap for the mutable inner lists: address `a` is valid when
`a < σ.length`, and then `σ[a]` holds the current contents of the list at
addres `a` (a list of leaf objects, e.g. `[operator, control]`). -/
abbrev Store := List (List Obj)

/-- Value of one entry of a nested structure, with references resolved:
either a leaf operator or the current contents of an inner list. -/
inductive EVal where
  | op : Obj → EVal
  | lst : List Obj → EVal
deriving DecidableEq, Repr

/-- Resolution of a single entry against a store. -/
def entryRes (σ : Store) : HEntry → Option EVal
  | HEntry.atom o => some (EVal.op o)
  | HEntry.pair a => (σ[a]?).map EVal.lst

/-- Resolution of a whole nested structure: the value of each entry, or
`none` when some reference dangles (which cannot happen for structures built
by the Python runtime). -/
def resolveH (σ : Store) : List HEntry → Option (List EVal)
  | [] => some []
  | e :: rest => do
      let v ← entryRes σ e
      let vs ← resolveH σ rest
      pure (v :: vs)

/-- Python list indexing `l[i]`, raising `IndexError` when out of range. -/
def pyGet {α : Type} (l : List α) (i : Nat) : Except String α :=
  match l[i]? with
  | some x => Except.ok x
  | none => Except.error "IndexError: list index out of range"

/-- Python item assignment `cell[i] = v` on the inner list at address `a`. -/
def storeSet (σ : Store) (a : Addr) (i : Nat) (v : Obj) : Except String Store :=
  match σ[a]? with
  | none => Except.error "invalid reference"
  | some cell =>
      if i < cell.length then Except.ok (σ.set a (cell.set i v))
      else Except.error "IndexError: list assignment index out of range"

/-- Python statement `H[i][1] = control`: look up entry `i` of the outer
list and assign slot `1` of the inner list it references.  Raises
`IndexError` when `i` is out of range of `H`, `TypeError` when `H[i]` is an
opaque object rather than a list, and `IndexError` when the inner list is
too short. -/
def setControlAt (σ : Store) (H : List HEntry) (i : Nat) (c : Obj) :
    Except String Store :=
  match H[i]? with
  | none => Except.error "IndexError: list index out of range"
  | some (HEntry.atom _) =>
      Except.error "TypeError: object does not support item assignment"
  | some (HEntry.pair a) => storeSet σ a 1 c

/-- Inner loop `for i in control_mapping: H[i][1] = control` of
`_plug_in_optimized_controls`. -/
def writeControl (H : List HEntry) (c : Obj) : Store → List Nat → Except String Store
  | σ, [] => Except.ok σ
  | σ, i :: rest =>
      match setControlAt σ H i c with
      | Except.error e => Except.error e
      | Except.ok σ2 => writeControl H c σ2 rest

/-- Outer loop `for (control, control_mapping) in zip(controls, mapping)` of
`_plug_in_optimized_controls`. -/
def plugLoop (H : List HEntry) : Store → List (Obj × List Nat) → Except String Store
  | σ, [] => Except.ok σ
  | σ, (c, cm) :: rest =>
      match writeControl H c σ cm with
      | Except.error e => Except.error e
      | Except.ok σ2 => plugLoop H σ2 rest

/-- Modelled from the spec: the helper `_nested_list_shallow_copy` is
imported from `krotov.structural_conversions`, whose source is not part of
the material under `src/`.  Per the spec (section 4.2) it shallow-copies the
nested structure at every level that will be mutated — the outer list and
each inner `[operator, control]` list — while sharing all leaf operator
references, so that the copy can be written into without the original being
reachable.  Here this allocates a fresh store cell, with unchanged contents,
for every inner-list entry of the structure. -/
def _nested_list_shallow_copy (σ : Store) : List HEntry → Store × List HEntry
  | [] => (σ, [])
  | HEntry.atom o :: rest =>
      let r := _nested_list_shallow_copy σ rest
      (r.1, HEntry.atom o :: r.2)
  | HEntry.pair a :: rest =>
      let content := (σ[a]?).getD []
      let r := _nested_list_shallow_copy (σ ++ [content]) rest
      (r.1, HEntry.pair σ.length :: r.2)

/-- Embedding of `_plug_in_optimized_controls(H, controls, mapping)`
(`result.py`, lines 130-136): shallow-copy `H`, then for every
`(control, control_mapping)` in `zip(controls, mapping)` and every position
`i` in `control_mapping`, perform `H[i][1] = control` on the copy.  Returns
the updated store together with the copied structure. -/
def _plug_in_optimized_controls (σ : Store) (H : List HEntry)
    (controls : List Obj) (mapping : List (List Nat)) :
    Except String (Store × List HEntry) :=
  let r := _nested_list_shallow_copy σ H
  match plugLoop r.2 r.1 (controls.zip mapping) with
  | Except.error e => Except.error e
  | Except.ok σ2 => Except.ok (σ2, r.2)

/-- Modelled from the spec: the `Objective` class lives in
`krotov.objectives`, whose source is not part of the material under `src/`.
Per the spec (sections 3 and 4.1) an objective carries a generator term `H`,
an initial state, a target state, and a list of dissipation terms `c_ops`,
each term being a nested operator structure; the constructor simply stores
the four components. -/
structure Objective where
  H : List HEntry
  initial_state : Obj
  target_state : Obj
  c_ops : List (List HEntry)
deriving DecidableEq, Repr

/-- Modelled from the spec and the Python standard library: a
`time.struct_time` local-time breakdown, with the fields used by the
`%Y-%m-%d %H:%M:%S` format. -/
structure StructTime where
  tm_year : Nat
  tm_mon : Nat
  tm_mday : Nat
  tm_hour : Nat
  tm_min : Nat
  tm_sec : Nat
deriving DecidableEq, Repr

/-- Embedding of the `Result` container (`result.py`, lines 11-127).
Opaque payloads (time-grid values, info values, overlaps, pulses, states)
are tracked only by object id, since the code never inspects them. -/
structure Result where
  objectives : List Objective
  tlist : List Obj
  iters : List Nat
  iter_seconds : List Nat
  info_vals : List (Option Obj)
  tau_vals : List (List Obj)
  guess_controls : List Obj
  optimized_controls : List Obj
  controls_mapping : List (List (List (List Nat)))
  all_pulses : List (List Obj)
  states : List (List Obj)
  start_local_time : Option StructTime
  end_local_time : Option StructTime
deriving DecidableEq, Repr

/-- Embedding of `Result.__init__` (`result.py`, lines 59-72): every list
attribute starts empty and both timestamps start unset. -/
def Result.init : Result :=
  { objectives := []
    tlist := []
    iters := []
    iter_seconds := []
    info_vals := []
    tau_vals := []
    guess_controls := []
    optimized_controls := []
    controls_mapping := []
    all_pulses := []
    states := []
    start_local_time := none
    end_local_time := none }

/-- Embedding of the class attribute `Result.time_fmt`. -/
def Result.time_fmt : String := "%Y-%m-%d %H:%M:%S"

/-- Decimal rendering of `n` left-padded with zeros to width `w`, as
produced by the `strftime` conversions `%Y` (width 4) and
`%m %d %H %M %S` (width 2). -/
def padNum (w : Nat) (n : Nat) : String :=
  let s := toString n
  if s.length < w then String.mk (List.replicate (w - s.length) '0') ++ s.toList.asString
  else s

/-- Modelled from the Python standard library: `time.strftime` applied to
the fixed pattern `Result.time_fmt` (`"%Y-%m-%d %H:%M:%S"`) and a local-time
`struct_time` value. -/
def time_strftime (t : StructTime) : String :=
  padNum 4 t.tm_year ++ "-" ++ padNum 2 t.tm_mon ++ "-" ++ padNum 2 t.tm_mday
    ++ " " ++ padNum 2 t.tm_hour ++ ":" ++ padNum 2 t.tm_min ++ ":"
    ++ padNum 2 t.tm_sec

/-- Embedding of the property `Result.start_local_time_str` (`result.py`,
lines 92-98): the formatted timestamp when set, the literal `"n/a"`
otherwise. -/
def Result.start_local_time_str (r : Result) : String :=
  match r.start_local_time with
  | some t => time_strftime t
  | none => "n/a"

/-- Embedding of the property `Result.end_local_time_str` (`result.py`,
lines 100-106). -/
def Result.end_local_time_str (r : Result) : String :=
  match r.end_local_time with
  | some t => time_strftime t
  | none => "n/a"

/-- Embedding of `Result.__str__` (`result.py`, lines 74-87), after
`textwrap.dedent` and `.strip()` have been applied to the template: the
four-line summary with the start time, the number of objectives, the
reported iteration count `len(self.iters) - 1` (Python integer
subtraction, hence `-1` on an empty list), and the end time. -/
def Result.render (r : Result) : String :=
  "Krotov Optimization Result\n--------------------------\n- Started at "
    ++ r.start_local_time_str
    ++ "\n- Number of objectives: " ++ toString r.objectives.length
    ++ "\n- Number of iterations: " ++ toString ((r.iters.length : Int) - 1)
    ++ "\n- Ended at " ++ r.end_local_time_str

/-- Loop body of the list comprehension over `obj.c_ops` in
`Result.optimized_objectives` (`result.py`, lines 116-120): for the `j`-th
collapse operator, substitute using descriptor `controls_mapping[i][j+1]`. -/
def cOpsLoop (controls : List Obj) (cmi : List (List (List Nat))) :
    Store → Nat → List (List HEntry) → Except String (Store × List (List HEntry))
  | σ, _, [] => Except.ok (σ, [])
  | σ, j, c_op :: rest => do
      let cm ← pyGet cmi (j + 1)
      let pr ← _plug_in_optimized_controls σ c_op controls cm
      let rr ← cOpsLoop controls cmi pr.1 (j + 1) rest
      Except.ok (rr.1, pr.2 :: rr.2)

/-- Loop over `enumerate(self.objectives)` in `Result.optimized_objectives`
(`result.py`, lines 112-126).  The generator term is substituted using
descriptor `controls_mapping[i][0]`, each collapse operator using
`controls_mapping[i][j+1]`, and the initial and target states are passed to
the new `Objective` unchanged (by reference). -/
def objLoop (controls : List Obj) (cmap : List (List (List (List Nat)))) :
    Store → Nat → List Objective → Except String (Store × List Objective)
  | σ, _, [] => Except.ok (σ, [])
  | σ, i, obj :: rest => do
      let cmi ← pyGet cmap i
      let cm0 ← pyGet cmi 0
      let pr ← _plug_in_optimized_controls σ obj.H controls cm0
      let cr ← cOpsLoop controls cmi pr.1 0 obj.c_ops
      let rr ← objLoop controls cmap cr.1 (i + 1) rest
      Except.ok (rr.1,
        { H := pr.2
          initial_state := obj.initial_state
          target_state := obj.target_state
          c_ops := cr.2 } :: rr.2)

/-- Embedding of the property `Result.optimized_objectives` (`result.py`,
lines 108-127): rebuild every objective with the optimized controls plugged
in according to `controls_mapping`. -/
def Result.optimized_objectives (σ : Store) (r : Result) :
    Except String (Store × List Objective) :=
  objLoop r.optimized_controls r.controls_mapping σ 0 r.objectives

/-- Pure mirror of `setControlAt` on resolved values. -/
def pureSetControlAt (V : List EVal) (i : Nat) (c : Obj) :
    Except String (List EVal) :=
  match V[i]? with
  | none => Except.error "IndexError: list index out of range"
  | some (EVal.op _) =>
      Except.error "TypeError: object does not support item assignment"
  | some (EVal.lst l) =>
      if 1 < l.length then Except.ok (V.set i (EVal.lst (l.set 1 c)))
      else Except.error "IndexError: list assignment index out of range"

/-- Pure mirror of `writeControl` on resolved values. -/
def pureWriteControl (c : Obj) : List EVal → List Nat → Except String (List EVal)
  | V, [] => Except.ok V
  | V, i :: rest =>
      match pureSetControlAt V i c with
      | Except.error e => Except.error e
      | Except.ok V2 => pureWriteControl c V2 rest

/-- Pure mirror of `plugLoop` on resolved values. -/
def purePlugLoop : List EVal → List (Obj × List Nat) → Except String (List EVal)
  | V, [] => Except.ok V
  | V, (c, cm) :: rest =>
      match pureWriteControl c V cm with
      | Except.error e => Except.error e
      | Except.ok V2 => purePlugLoop V2 rest

/-- Pure mirror of `_plug_in_optimized_controls` on resolved values: the
copy step disappears, the write loops act on the value directly. -/
def pure_plug (V : List EVal) (controls : List Obj)
    (mapping : List (List Nat)) : Except String (List EVal) :=
  purePlugLoop V (controls.zip mapping)

/-- Resolved view of an objective: nested structures replaced by their
current values. -/
structure RObjective where
  H : List EVal
  initial_state : Obj
  target_state : Obj
  c_ops : List (List EVal)
deriving DecidableEq, Repr

/-- Resolution of a list of nested structures. -/
def resolveHs (σ : Store) : List (List HEntry) → Option (List (List EVal))
  | [] => some []
  | H :: rest => do
      let v ← resolveH σ H
      let vs ← resolveHs σ rest
      pure (v :: vs)

/-- Resolution of an objective against a store. -/
def resolveObjective (σ : Store) (o : Objective) : Option RObjective := do
  let h ← resolveH σ o.H
  let cs ← resolveHs σ o.c_ops
  pure { H := h
         initial_state := o.initial_state
         target_state := o.target_state
         c_ops := cs }

/-- Resolution of a list of objectives against a store. -/
def resolveObjectives (σ : Store) : List Objective → Option (List RObjective)
  | [] => some []
  | o :: rest => do
      let v ← resolveObjective σ o
      let vs ← resolveObjectives σ rest
      pure (v :: vs)

/-- Pure mirror of `cOpsLoop` on resolved values. -/
def pureCopsLoop (controls : List Obj) (cmi : List (List (List Nat))) :
    Nat → List (List EVal) → Except String (List (List EVal))
  | _, [] => Except.ok []
  | j, v :: rest => do
      let cm ← pyGet cmi (j + 1)
      let v2 ← pure_plug v controls cm
      let rest2 ← pureCopsLoop controls cmi (j + 1) rest
      Except.ok (v2 :: rest2)

/-- Pure mirror of `objLoop` on resolved values. -/
def pureObjLoop (controls : List Obj) (cmap : List (List (List (List Nat)))) :
    Nat → List RObjective → Except String (List RObjective)
  | _, [] => Except.ok []
  | i, ro :: rest => do
      let cmi ← pyGet cmap i
      let cm0 ← pyGet cmi 0
      let H2 ← pure_plug ro.H controls cm0
      let cops2 ← pureCopsLoop controls cmi 0 ro.c_ops
      let rest2 ← pureObjLoop controls cmap (i + 1) rest
      Except.ok ({ H := H2
                   initial_state := ro.initial_state
                   target_state := ro.target_state
                   c_ops := cops2 } :: rest2)

/-- Store evolution: the new store keeps every cell of the old one (same
address, same contents); cells are only ever appended or overwritten at
fresh addresses. -/
def storeLe (σ σ2 : Store) : Prop :=
  σ.length ≤ σ2.length ∧ ∀ b : Nat, b < σ.length → σ2[b]? = σ[b]?

/-- Well-formedness of a nested structure relative to a store: every inner
list reference is a valid address. -/
def wfH (σ : Store) (H : List HEntry) : Prop :=
  ∀ a : Addr, HEntry.pair a ∈ H → a < σ.length

/-- Well-formedness of a list of nested structures. -/
def wfHs (σ : Store) (Hs : List (List HEntry)) : Prop :=
  ∀ H ∈ Hs, wfH σ H

/-- Well-formedness of an objective relative to a store. -/
def wfObjective (σ : Store) (o : Objective) : Prop :=
  wfH σ o.H ∧ wfHs σ o.c_ops

/-- Well-formedness of a list of objectives relative to a store. -/
def wfObjectives (σ : Store) (objs : List Objective) : Prop :=
  ∀ o ∈ objs, wfObjective σ o

/-- Facts established by `_nested_list_shallow_copy`: the store only grows,
the copied structure has the same length and the same leaf entries, every
inner-list entry is re-seated at a fresh address holding the same contents,
and the fresh addresses are pairwise distinct. -/
structure CopyFacts (σ : Store) (H : List HEntry) (σ2 : Store)
    (H2 : List HEntry) : Prop where
  le : storeLe σ σ2
  len : H2.length = H.length
  atomF : ∀ (p : Nat) (o : Obj), H[p]? = some (HEntry.atom o) →
    H2[p]? = some (HEntry.atom o)
  pairF : ∀ (p : Nat) (a : Addr), H[p]? = some (HEntry.pair a) →
    a < σ.length →
    ∃ a2 : Addr, H2[p]? = some (HEntry.pair a2) ∧ σ.length ≤ a2 ∧
      σ2[a2]? = σ[a]?
  freshF : ∀ (p : Nat) (a2 : Addr), H2[p]? = some (HEntry.pair a2) →
    σ.length ≤ a2 ∧ a2 < σ2.length
  injF : ∀ (p q : Nat) (a2 : Addr), H2[p]? = some (HEntry.pair a2) →
    H2[q]? = some (HEntry.pair a2) → p = q

/-- Simulation relation between a store-based structure and its resolved
value: same length, every entry resolves to the corresponding value, and
distinct positions reference distinct inner lists (which holds for the
output of the shallow copy, where every inner list is freshly allocated). -/
structure SimRel (σ : Store) (H : List HEntry) (V : List EVal) : Prop where
  len : H.length = V.length
  resv : ∀ (p : Nat) (e : HEntry), H[p]? = some e →
    ∃ v, entryRes σ e = some v ∧ V[p]? = some v
  inj : ∀ (p q : Nat) (a : Addr), H[p]? = some (HEntry.pair a) →
    H[q]? = some (HEntry.pair a) → p = q

/-- Outcome relation for one simulation step or loop: both computations
fail with the same message, or both succeed with related results. -/
def SimOut (H : List HEntry) :
    Except String Store → Except String (List EVal) → Prop
  | Except.error e, Except.error e2 => e = e2
  | Except.ok σ2, Except.ok V2 => SimRel σ2 H V2
  | _, _ => False

/-- Outcome relation for the full substitution routine against its pure
mirror: same error, or success with the returned structure resolving to the
pure result, the store only extended, and the copy living entirely at fresh
addresses. -/
def PlugSim (σ : Store) (H : List HEntry) :
    Except String (Store × List HEntry) → Except String (List EVal) → Prop
  | Except.error e, Except.error e2 => e = e2
  | Except.ok pr, Except.ok V2 =>
      resolveH pr.1 pr.2 = some V2 ∧ storeLe σ pr.1 ∧ pr.2.length = H.length ∧
        (∀ a : Addr, HEntry.pair a ∈ pr.2 → σ.length ≤ a ∧ a < pr.1.length)
  | _, _ => False

/-- Length of the writable inner list at position `p` of a resolved
structure (0 for a leaf operator entry or an out-of-range position). -/
def slotLen (V : List EVal) (p : Nat) : Nat :=
  match V[p]? with
  | some (EVal.lst l) => l.length
  | _ => 0

/-- Position `p` of the resolved structure is a valid write target: an
inner list whose slot 1 exists. -/
def goodIdx (V : List EVal) (p : Nat) : Prop := 2 ≤ slotLen V p

instance goodIdxDec (V : List EVal) (p : Nat) : Decidable (goodIdx V p) :=
  inferInstanceAs (Decidable (2 ≤ slotLen V p))

/-- Position `p` of structure `H` is an invalid write target for the
statement `H[p][1] = c`: out of range, an opaque object with no item
assignment, or an inner list without a slot 1.  (A dangling reference
cannot arise for structures built by the Python runtime.) -/
def badAt (σ : Store) (H : List HEntry) (p : Nat) : Prop :=
  H[p]? = none ∨ (∃ o, H[p]? = some (HEntry.atom o)) ∨
    (∃ a l, H[p]? = some (HEntry.pair a) ∧ σ[a]? = some l ∧ l.length < 2)

/-- Outcome relation for the collapse-operator loop against its pure
mirror. -/
def CopsSim (σ : Store) :
    Except String (Store × List (List HEntry)) →
      Except String (List (List EVal)) → Prop
  | Except.error e, Except.error e2 => e = e2
  | Except.ok pr, Except.ok Vs2 =>
      storeLe σ pr.1 ∧ resolveHs pr.1 pr.2 = some Vs2
  | _, _ => False

/-- Outcome relation for the objective loop against its pure mirror. -/
def ObjsSim (σ : Store) :
    Except String (Store × List Objective) →
      Except String (List RObjective) → Prop
  | Except.error e, Except.error e2 => e = e2
  | Except.ok pr, Except.ok R2 =>
      storeLe σ pr.1 ∧ resolveObjectives pr.1 pr.2 = some R2
  | _, _ => False

/-- Helper: a successful optional lookup implies the index is in range. -/
theorem getElem?_lt {α : Type} {l : List α} {i : Nat} {x : α}
    (h : l[i]? = some x) : i < l.length :=
  (List.getElem?_eq_some.mp h).1

theorem storeLe_refl (σ : Store) : storeLe σ σ :=
  ⟨le_refl _, fun _ _ => rfl⟩

theorem storeLe_trans {σ1 σ2 σ3 : Store} (h1 : storeLe σ1 σ2)
    (h2 : storeLe σ2 σ3) : storeLe σ1 σ3 :=
  ⟨le_trans h1.1 h2.1, fun b hb => by
    rw [h2.2 b (lt_of_lt_of_le hb h1.1), h1.2 b hb]⟩

theorem resolveH_cons {σ : Store} {e : HEntry} {rest : List HEntry} :
    resolveH σ (e :: rest) =
      (entryRes σ e).bind fun v =>
        (resolveH σ rest).bind fun vs => some (v :: vs) := rfl

theorem resolveH_length {σ : Store} {H : List HEntry} {V : List EVal}
    (h : resolveH σ H = some V) : V.length = H.length := by
  induction H generalizing V with
  | nil =>
      simp only [resolveH] at h
      cases Option.some.inj h
      rfl
  | cons e rest ih =>
      rw [resolveH_cons] at h
      rcases Option.bind_eq_some.mp h with ⟨v, hv, h2⟩
      rcases Option.bind_eq_some.mp h2 with ⟨vs, hvs, h3⟩
      cases Option.some.inj h3
      simp [ih hvs]

theorem resolveH_get {σ : Store} {H : List HEntry} {V : List EVal}
    (h : resolveH σ H = some V) {p : Nat} {e : HEntry} (hp : H[p]? = some e) :
    ∃ v, entryRes σ e = some v ∧ V[p]? = some v := by
  induction H generalizing V p with
  | nil => simp at hp
  | cons e0 rest ih =>
      rw [resolveH_cons] at h
      rcases Option.bind_eq_some.mp h with ⟨v, hv, h2⟩
      rcases Option.bind_eq_some.mp h2 with ⟨vs, hvs, h3⟩
      cases Option.some.inj h3
      cases p with
      | zero =>
          simp only [List.getElem?_cons_zero] at hp
          cases Option.some.inj hp
          exact ⟨v, hv, by simp⟩
      | succ p2 =>
          simp only [List.getElem?_cons_succ] at hp ⊢
          exact ih hvs hp

theorem resolveH_of_get {σ : Store} {H : List HEntry} {V : List EVal}
    (hlen : V.length = H.length)
    (h : ∀ (p : Nat) (e : HEntry), H[p]? = some e →
      ∃ v, entryRes σ e = some v ∧ V[p]? = some v) :
    resolveH σ H = some V := by
  induction H generalizing V with
  | nil =>
      cases V with
      | nil => rfl
      | cons v vs => simp at hlen
  | cons e0 rest ih =>
      cases V with
      | nil => simp at hlen
      | cons v vs =>
          rcases h 0 e0 (by simp) with ⟨v0, hv0, hV0⟩
          simp only [List.getElem?_cons_zero] at hV0
          cases Option.some.inj hV0
          have hrest : resolveH σ rest = some vs := by
            refine ih (by simpa using hlen) ?_
            intro p e hp
            rcases h (p + 1) e (by simpa using hp) with ⟨w, hw, hVw⟩
            exact ⟨w, hw, by simpa using hVw⟩
          rw [resolveH_cons, hv0, hrest]
          rfl

theorem resolveH_wfH {σ : Store} {H : List HEntry} {V : List EVal}
    (h : resolveH σ H = some V) : wfH σ H := by
  intro a ha
  rcases List.mem_iff_getElem?.mp ha with ⟨p, hp⟩
  rcases resolveH_get h hp with ⟨v, hv, _⟩
  simp only [entryRes] at hv
  rcases Option.map_eq_some'.mp hv with ⟨l, hl, _⟩
  exact getElem?_lt hl

theorem resolveH_congr {σ σ2 : Store} {H : List HEntry}
    (hle : storeLe σ σ2) (hwf : wfH σ H) :
    resolveH σ2 H = resolveH σ H := by
  induction H with
  | nil => rfl
  | cons e rest ih =>
      rw [resolveH_cons, resolveH_cons,
        ih (fun a ha => hwf a (List.mem_cons_of_mem _ ha))]
      have he : entryRes σ2 e = entryRes σ e := by
        cases e with
        | atom o => rfl
        | pair a =>
            simp only [entryRes]
            rw [hle.2 a (hwf a (List.mem_cons_self _ _))]
      rw [he]

theorem resolveHs_cons {σ : Store} {H : List HEntry} {rest : List (List HEntry)} :
    resolveHs σ (H :: rest) =
      (resolveH σ H).bind fun v =>
        (resolveHs σ rest).bind fun vs => some (v :: vs) := rfl

theorem resolveHs_length {σ : Store} {Hs : List (List HEntry)}
    {Vs : List (List EVal)} (h : resolveHs σ Hs = some Vs) :
    Vs.length = Hs.length := by
  induction Hs generalizing Vs with
  | nil =>
      simp only [resolveHs] at h
      cases Option.some.inj h
      rfl
  | cons H rest ih =>
      rw [resolveHs_cons] at h
      rcases Option.bind_eq_some.mp h with ⟨v, hv, h2⟩
      rcases Option.bind_eq_some.mp h2 with ⟨vs, hvs, h3⟩
      cases Option.some.inj h3
      simp [ih hvs]

theorem resolveHs_get {σ : Store} {Hs : List (List HEntry)}
    {Vs : List (List EVal)} (h : resolveHs σ Hs = some Vs) {j : Nat}
    {H : List HEntry} (hj : Hs[j]? = some H) :
    ∃ v, resolveH σ H = some v ∧ Vs[j]? = some v := by
  induction Hs generalizing Vs j with
  | nil => simp at hj
  | cons H0 rest ih =>
      rw [resolveHs_cons] at h
      rcases Option.bind_eq_some.mp h with ⟨v, hv, h2⟩
      rcases Option.bind_eq_some.mp h2 with ⟨vs, hvs, h3⟩
      cases Option.some.inj h3
      cases j with
      | zero =>
          simp only [List.getElem?_cons_zero] at hj
          cases Option.some.inj hj
          exact ⟨v, hv, by simp⟩
      | succ j2 =>
          simp only [List.getElem?_cons_succ] at hj ⊢
          exact ih hvs hj

theorem resolveHs_wfHs {σ : Store} {Hs : List (List HEntry)}
    {Vs : List (List EVal)} (h : resolveHs σ Hs = some Vs) : wfHs σ Hs := by
  intro H hH
  rcases List.mem_iff_getElem?.mp hH with ⟨j, hj⟩
  rcases resolveHs_get h hj with ⟨v, hv, _⟩
  exact resolveH_wfH hv

theorem resolveHs_congr {σ σ2 : Store} {Hs : List (List HEntry)}
    (hle : storeLe σ σ2) (hwf : wfHs σ Hs) :
    resolveHs σ2 Hs = resolveHs σ Hs := by
  induction Hs with
  | nil => rfl
  | cons H rest ih =>
      rw [resolveHs_cons, resolveHs_cons,
        ih (fun H2 h2 => hwf H2 (List.mem_cons_of_mem _ h2)),
        resolveH_congr hle (hwf H (List.mem_cons_self _ _))]

theorem resolveObjective_inv {σ : Store} {o : Objective} {ro : RObjective}
    (h : resolveObjective σ o = some ro) :
    resolveH σ o.H = some ro.H ∧ resolveHs σ o.c_ops = some ro.c_ops ∧
      ro.initial_state = o.initial_state ∧ ro.target_state = o.target_state := by
  unfold resolveObjective at h
  rcases Option.bind_eq_some.mp h with ⟨v, hv, h2⟩
  rcases Option.bind_eq_some.mp h2 with ⟨vs, hvs, h3⟩
  cases Option.some.inj h3
  exact ⟨hv, hvs, rfl, rfl⟩

theorem resolveObjective_mk {σ : Store} {o : Objective} {h : List EVal}
    {cs : List (List EVal)} (hh : resolveH σ o.H = some h)
    (hcs : resolveHs σ o.c_ops = some cs) :
    resolveObjective σ o = some
      { H := h
        initial_state := o.initial_state
        target_state := o.target_state
        c_ops := cs } := by
  unfold resolveObjective
  rw [hh, hcs]
  rfl

theorem resolveObjective_wf {σ : Store} {o : Objective} {ro : RObjective}
    (h : resolveObjective σ o = some ro) : wfObjective σ o :=
  ⟨resolveH_wfH (resolveObjective_inv h).1,
   resolveHs_wfHs (resolveObjective_inv h).2.1⟩

theorem resolveObjective_congr {σ σ2 : Store} {o : Objective}
    (hle : storeLe σ σ2) (hwf : wfObjective σ o) :
    resolveObjective σ2 o = resolveObjective σ o := by
  unfold resolveObjective
  rw [resolveH_congr hle hwf.1, resolveHs_congr hle hwf.2]

theorem resolveObjectives_cons {σ : Store} {o : Objective} {rest : List Objective} :
    resolveObjectives σ (o :: rest) =
      (resolveObjective σ o).bind fun v =>
        (resolveObjectives σ rest).bind fun vs => some (v :: vs) := rfl

theorem resolveObjectives_length {σ : Store} {objs : List Objective}
    {R : List RObjective} (h : resolveObjectives σ objs = some R) :
    R.length = objs.length := by
  induction objs generalizing R with
  | nil =>
      simp only [resolveObjectives] at h
      cases Option.some.inj h
      rfl
  | cons o rest ih =>
      rw [resolveObjectives_cons] at h
      rcases Option.bind_eq_some.mp h with ⟨v, hv, h2⟩
      rcases Option.bind_eq_some.mp h2 with ⟨vs, hvs, h3⟩
      cases Option.some.inj h3
      simp [ih hvs]

theorem resolveObjectives_get {σ : Store} {objs : List Objective}
    {R : List RObjective} (h : resolveObjectives σ objs = some R) {j : Nat}
    {o : Objective} (hj : objs[j]? = some o) :
    ∃ ro, resolveObjective σ o = some ro ∧ R[j]? = some ro := by
  induction objs generalizing R j with
  | nil => simp at hj
  | cons o0 rest ih =>
      rw [resolveObjectives_cons] at h
      rcases Option.bind_eq_some.mp h with ⟨v, hv, h2⟩
      rcases Option.bind_eq_some.mp h2 with ⟨vs, hvs, h3⟩
      cases Option.some.inj h3
      cases j with
      | zero =>
          simp only [List.getElem?_cons_zero] at hj
          cases Option.some.inj hj
          exact ⟨v, hv, by simp⟩
      | succ j2 =>
          simp only [List.getElem?_cons_succ] at hj ⊢
          exact ih hvs hj

theorem resolveObjectives_wf {σ : Store} {objs : List Objective}
    {R : List RObjective} (h : resolveObjectives σ objs = some R) :
    wfObjectives σ objs := by
  intro o ho
  rcases List.mem_iff_getElem?.mp ho with ⟨j, hj⟩
  rcases resolveObjectives_get h hj with ⟨ro, hro, _⟩
  exact resolveObjective_wf hro

theorem resolveObjectives_congr {σ σ2 : Store} {objs : List Objective}
    (hle : storeLe σ σ2) (hwf : wfObjectives σ objs) :
    resolveObjectives σ2 objs = resolveObjectives σ objs := by
  induction objs with
  | nil => rfl
  | cons o rest ih =>
      rw [resolveObjectives_cons, resolveObjectives_cons,
        ih (fun o2 h2 => hwf o2 (List.mem_cons_of_mem _ h2)),
        resolveObjective_congr hle (hwf o (List.mem_cons_self _ _))]

theorem pyGet_ok {α : Type} {l : List α} {i : Nat} {x : α} :
    pyGet l i = Except.ok x ↔ l[i]? = some x := by
  unfold pyGet
  cases h : l[i]? with
  | none => simp
  | some y => simp

theorem storeSet_ok {σ : Store} {a : Addr} {i : Nat} {v : Obj} {σ2 : Store}
    (h : storeSet σ a i v = Except.ok σ2) :
    ∃ cell, σ[a]? = some cell ∧ i < cell.length ∧
      σ2 = σ.set a (cell.set i v) := by
  unfold storeSet at h
  split at h
  · cases h
  · rename_i cell hcell
    split at h
    · exact ⟨cell, hcell, by assumption, (Except.ok.inj h).symm⟩
    · cases h

theorem setControlAt_ok {σ : Store} {H : List HEntry} {i : Nat} {c : Obj}
    {σ2 : Store} (h : setControlAt σ H i c = Except.ok σ2) :
    ∃ a cell, H[i]? = some (HEntry.pair a) ∧ σ[a]? = some cell ∧
      1 < cell.length ∧ σ2 = σ.set a (cell.set 1 c) := by
  unfold setControlAt at h
  split at h
  · cases h
  · cases h
  · rename_i a ha
    rcases storeSet_ok h with ⟨cell, hcell, hlen, heq⟩
    exact ⟨a, cell, ha, hcell, hlen, heq⟩

theorem writeControl_ok_frame {H : List HEntry} {c : Obj} {cm : List Nat}
    {σ σ2 : Store} (h : writeControl H c σ cm = Except.ok σ2) :
    σ2.length = σ.length ∧
      ∀ b : Nat, (∀ a : Addr, HEntry.pair a ∈ H → b ≠ a) → σ2[b]? = σ[b]? := by
  induction cm generalizing σ with
  | nil =>
      cases Except.ok.inj h
      exact ⟨rfl, fun _ _ => rfl⟩
  | cons i rest ih =>
      unfold writeControl at h
      split at h
      · cases h
      · rename_i σmid hset
        rcases setControlAt_ok hset with ⟨a, cell, hi, hcell, hlen, heq⟩
        rcases ih h with ⟨hl, hf⟩
        subst heq
        refine ⟨by simp [hl], ?_⟩
        intro b hb
        rw [hf b hb, List.getElem?_set_ne (Ne.symm (hb a (List.getElem?_mem hi)))]

theorem plugLoop_ok_frame {H : List HEntry} {pairs : List (Obj × List Nat)}
    {σ σ2 : Store} (h : plugLoop H σ pairs = Except.ok σ2) :
    σ2.length = σ.length ∧
      ∀ b : Nat, (∀ a : Addr, HEntry.pair a ∈ H → b ≠ a) → σ2[b]? = σ[b]? := by
  induction pairs generalizing σ with
  | nil =>
      cases Except.ok.inj h
      exact ⟨rfl, fun _ _ => rfl⟩
  | cons pr rest ih =>
      rcases pr with ⟨c, cm⟩
      unfold plugLoop at h
      split at h
      · cases h
      · rename_i σmid hw
        rcases writeControl_ok_frame hw with ⟨hl1, hf1⟩
        rcases ih h with ⟨hl2, hf2⟩
        exact ⟨by rw [hl2, hl1], fun b hb => by rw [hf2 b hb, hf1 b hb]⟩

theorem copy_facts : ∀ (H : List HEntry) (σ : Store),
    CopyFacts σ H (_nested_list_shallow_copy σ H).1
      (_nested_list_shallow_copy σ H).2 := by
  intro H
  induction H with
  | nil =>
      intro σ
      refine ⟨storeLe_refl σ, rfl, ?_, ?_, ?_, ?_⟩ <;>
        · intros p
          intros
          simp_all [_nested_list_shallow_copy]
  | cons e rest ih =>
      intro σ
      cases e with
      | atom o =>
          have hr := ih σ
          have h1 : (_nested_list_shallow_copy σ (HEntry.atom o :: rest)).1
              = (_nested_list_shallow_copy σ rest).1 := rfl
          have h2 : (_nested_list_shallow_copy σ (HEntry.atom o :: rest)).2
              = HEntry.atom o :: (_nested_list_shallow_copy σ rest).2 := rfl
          rw [h1, h2]
          refine ⟨hr.le, by simp [hr.len], ?_, ?_, ?_, ?_⟩
          · intro p o2 hp
            cases p with
            | zero =>
                simp only [List.getElem?_cons_zero] at hp ⊢
                exact hp
            | succ p2 =>
                simp only [List.getElem?_cons_succ] at hp ⊢
                exact hr.atomF p2 o2 hp
          · intro p a hp ha
            cases p with
            | zero => simp at hp
            | succ p2 =>
                simp only [List.getElem?_cons_succ] at hp ⊢
                exact hr.pairF p2 a hp ha
          · intro p a2 hp
            cases p with
            | zero => simp at hp
            | succ p2 =>
                simp only [List.getElem?_cons_succ] at hp
                exact hr.freshF p2 a2 hp
          · intro p q a2 hp hq
            cases p with
            | zero => simp at hp
            | succ p2 =>
                cases q with
                | zero => simp at hq
                | succ q2 =>
                    simp only [List.getElem?_cons_succ] at hp hq
                    exact congrArg Nat.succ (hr.injF p2 q2 a2 hp hq)
      | pair a =>
          have hr := ih (σ ++ [(σ[a]?).getD []])
          have h1 : (_nested_list_shallow_copy σ (HEntry.pair a :: rest)).1
              = (_nested_list_shallow_copy (σ ++ [(σ[a]?).getD []]) rest).1 := rfl
          have h2 : (_nested_list_shallow_copy σ (HEntry.pair a :: rest)).2
              = HEntry.pair σ.length ::
                (_nested_list_shallow_copy (σ ++ [(σ[a]?).getD []]) rest).2 := rfl
          rw [h1, h2]
          have hl1 : (σ ++ [(σ[a]?).getD []]).length = σ.length + 1 := by simp
          have hle0 : storeLe σ (σ ++ [(σ[a]?).getD []]) :=
            ⟨by simp, fun b hb => List.getElem?_append_left hb⟩
          have hlemid : σ.length ≤ (σ ++ [(σ[a]?).getD []]).length := by simp
          refine ⟨storeLe_trans hle0 hr.le, by simp [hr.len], ?_, ?_, ?_, ?_⟩
          · intro p o2 hp
            cases p with
            | zero => simp at hp
            | succ p2 =>
                simp only [List.getElem?_cons_succ] at hp ⊢
                exact hr.atomF p2 o2 hp
          · intro p a3 hp ha3
            cases p with
            | zero =>
                simp only [List.getElem?_cons_zero] at hp
                cases Option.some.inj hp
                refine ⟨σ.length, by simp, le_refl _, ?_⟩
                have hmid : σ.length < (σ ++ [(σ[a]?).getD []]).length := by simp
                rw [hr.le.2 σ.length hmid, List.getElem?_concat_length,
                  List.getElem?_eq_getElem ha3]
                rfl
            | succ p2 =>
                simp only [List.getElem?_cons_succ] at hp ⊢
                rcases hr.pairF p2 a3 hp (lt_of_lt_of_le ha3 hlemid) with
                  ⟨a2, hp2, hge, hval⟩
                refine ⟨a2, hp2, le_trans hlemid hge, ?_⟩
                rw [hval, List.getElem?_append_left ha3]
          · intro p a2 hp
            cases p with
            | zero =>
                simp only [List.getElem?_cons_zero] at hp
                cases Option.some.inj hp
                exact ⟨le_refl _, lt_of_lt_of_le (by simp) hr.le.1⟩
            | succ p2 =>
                simp only [List.getElem?_cons_succ] at hp
                rcases hr.freshF p2 a2 hp with ⟨hge, hlt⟩
                exact ⟨le_trans hlemid hge, hlt⟩
          · intro p q a2 hp hq
            cases p with
            | zero =>
                cases q with
                | zero => rfl
                | succ q2 =>
                    simp only [List.getElem?_cons_zero] at hp
                    cases Option.some.inj hp
                    simp only [List.getElem?_cons_succ] at hq
                    rcases hr.freshF q2 _ hq with ⟨hge, _⟩
                    rw [hl1] at hge
                    omega
            | succ p2 =>
                cases q with
                | zero =>
                    simp only [List.getElem?_cons_zero] at hq
                    cases Option.some.inj hq
                    simp only [List.getElem?_cons_succ] at hp
                    rcases hr.freshF p2 _ hp with ⟨hge, _⟩
                    rw [hl1] at hge
                    omega
                | succ q2 =>
                    simp only [List.getElem?_cons_succ] at hp hq
                    exact congrArg Nat.succ (hr.injF p2 q2 a2 hp hq)

theorem simRel_resolveH {σ : Store} {H : List HEntry} {V : List EVal}
    (h : SimRel σ H V) : resolveH σ H = some V :=
  resolveH_of_get h.len.symm h.resv

theorem copy_simRel {σ : Store} {H : List HEntry} {V : List EVal}
    (h : resolveH σ H = some V) :
    SimRel (_nested_list_shallow_copy σ H).1
      (_nested_list_shallow_copy σ H).2 V := by
  have cf := copy_facts H σ
  have hwf := resolveH_wfH h
  have hlenHV := resolveH_length h
  refine ⟨by rw [cf.len, hlenHV], ?_, cf.injF⟩
  intro p e2 hp
  have hplt : p < H.length := by
    have := getElem?_lt hp
    rwa [cf.len] at this
  have he : H[p]? = some (H[p]) := List.getElem?_eq_getElem hplt
  rcases resolveH_get h he with ⟨v, hv, hV⟩
  cases hHp : H[p] with
  | atom o =>
      rw [hHp] at he hv
      have h2 := cf.atomF p o he
      have he2 : e2 = HEntry.atom o := by
        rw [h2] at hp
        exact (Option.some.inj hp).symm
      subst he2
      have hvo : v = EVal.op o := (Option.some.inj hv).symm
      subst hvo
      exact ⟨EVal.op o, rfl, hV⟩
  | pair a =>
      rw [hHp] at he hv
      have ha : a < σ.length := hwf a (List.getElem?_mem he)
      rcases cf.pairF p a he ha with ⟨a2, hp2, _, hval⟩
      have he2 : e2 = HEntry.pair a2 := by
        rw [hp2] at hp
        exact (Option.some.inj hp).symm
      subst he2
      simp only [entryRes] at hv ⊢
      rw [hval]
      exact ⟨v, hv, hV⟩

theorem sim_setControlAt {σ : Store} {H : List HEntry} {V : List EVal}
    (hsim : SimRel σ H V) (i : Nat) (c : Obj) :
    SimOut H (setControlAt σ H i c) (pureSetControlAt V i c) := by
  cases hHi : H[i]? with
  | none =>
      have hVi : V[i]? = none := by
        rw [List.getElem?_eq_none_iff] at hHi ⊢
        rw [← hsim.len]
        exact hHi
      unfold setControlAt pureSetControlAt
      rw [hHi, hVi]
      exact rfl
  | some e =>
      rcases hsim.resv i e hHi with ⟨v, hv, hVi⟩
      cases e with
      | atom o =>
          have hvo : v = EVal.op o := (Option.some.inj hv).symm
          subst hvo
          unfold setControlAt pureSetControlAt
          rw [hHi, hVi]
          exact rfl
      | pair a =>
          simp only [entryRes] at hv
          rcases Option.map_eq_some'.mp hv with ⟨l, hl, hveq⟩
          subst hveq
          have himpl : setControlAt σ H i c =
              if 1 < l.length then Except.ok (σ.set a (l.set 1 c))
              else Except.error
                "IndexError: list assignment index out of range" := by
            unfold setControlAt
            rw [hHi]
            show storeSet σ a 1 c = _
            unfold storeSet
            rw [hl]
          have hpure : pureSetControlAt V i c =
              if 1 < l.length then Except.ok (V.set i (EVal.lst (l.set 1 c)))
              else Except.error
                "IndexError: list assignment index out of range" := by
            unfold pureSetControlAt
            rw [hVi]
          rw [himpl, hpure]
          by_cases hlen : 1 < l.length
          · rw [if_pos hlen, if_pos hlen]
            show SimRel (σ.set a (l.set 1 c)) H
              (V.set i (EVal.lst (l.set 1 c)))
            refine ⟨by rw [hsim.len]; simp, ?_, hsim.inj⟩
            intro p e2 hp
            cases e2 with
            | atom o2 =>
                rcases hsim.resv p _ hp with ⟨v2, hv2, hV2⟩
                have hvo : v2 = EVal.op o2 := (Option.some.inj hv2).symm
                subst hvo
                have hpi : p ≠ i := by
                  intro hpe
                  rw [hpe, hHi] at hp
                  simp at hp
                refine ⟨EVal.op o2, rfl, ?_⟩
                rw [List.getElem?_set_ne (Ne.symm hpi)]
                exact hV2
            | pair a2 =>
                by_cases haa : a2 = a
                · subst haa
                  have hpi : p = i := hsim.inj p i a2 hp hHi
                  subst hpi
                  refine ⟨EVal.lst (l.set 1 c), ?_, ?_⟩
                  · simp only [entryRes]
                    rw [List.getElem?_set_self (getElem?_lt hl)]
                    rfl
                  · rw [List.getElem?_set_self (getElem?_lt hVi)]
                · have hpi : p ≠ i := by
                    intro hpe
                    rw [hpe, hHi] at hp
                    exact haa (HEntry.pair.inj (Option.some.inj hp).symm)
                  rcases hsim.resv p _ hp with ⟨v2, hv2, hV2⟩
                  simp only [entryRes] at hv2
                  rcases Option.map_eq_some'.mp hv2 with ⟨l2, hl2, hv2eq⟩
                  subst hv2eq
                  refine ⟨EVal.lst l2, ?_, ?_⟩
                  · simp only [entryRes]
                    rw [List.getElem?_set_ne (Ne.symm haa), hl2]
                    rfl
                  · rw [List.getElem?_set_ne (Ne.symm hpi)]
                    exact hV2
          · rw [if_neg hlen, if_neg hlen]
            exact rfl

theorem sim_writeControl {σ : Store} {H : List HEntry} {V : List EVal}
    (hsim : SimRel σ H V) (c : Obj) (cm : List Nat) :
    SimOut H (writeControl H c σ cm) (pureWriteControl c V cm) := by
  induction cm generalizing σ V with
  | nil => exact hsim
  | cons i rest ih =>
      have hstep := sim_setControlAt hsim i c
      cases hs : setControlAt σ H i c with
      | error e =>
          cases hp : pureSetControlAt V i c with
          | error e2 =>
              rw [hs, hp] at hstep
              simp only [writeControl, pureWriteControl, hs, hp]
              exact hstep
          | ok V2 =>
              rw [hs, hp] at hstep
              exact hstep.elim
      | ok σ2 =>
          cases hp : pureSetControlAt V i c with
          | error e2 =>
              rw [hs, hp] at hstep
              exact hstep.elim
          | ok V2 =>
              rw [hs, hp] at hstep
              simp only [writeControl, pureWriteControl, hs, hp]
              exact ih hstep

theorem sim_plugLoop {σ : Store} {H : List HEntry} {V : List EVal}
    (hsim : SimRel σ H V) (pairs : List (Obj × List Nat)) :
    SimOut H (plugLoop H σ pairs) (purePlugLoop V pairs) := by
  induction pairs generalizing σ V with
  | nil => exact hsim
  | cons pr rest ih =>
      rcases pr with ⟨c, cm⟩
      have hstep := sim_writeControl hsim c cm
      cases hs : writeControl H c σ cm with
      | error e =>
          cases hp : pureWriteControl c V cm with
          | error e2 =>
              rw [hs, hp] at hstep
              simp only [plugLoop, purePlugLoop, hs, hp]
              exact hstep
          | ok V2 =>
              rw [hs, hp] at hstep
              exact hstep.elim
      | ok σ2 =>
          cases hp : pureWriteControl c V cm with
          | error e2 =>
              rw [hs, hp] at hstep
              exact hstep.elim
          | ok V2 =>
              rw [hs, hp] at hstep
              simp only [plugLoop, purePlugLoop, hs, hp]
              exact ih hstep

theorem plug_def (σ : Store) (H : List HEntry) (controls : List Obj)
    (mapping : List (List Nat)) :
    _plug_in_optimized_controls σ H controls mapping =
      match plugLoop (_nested_list_shallow_copy σ H).2
          (_nested_list_shallow_copy σ H).1 (controls.zip mapping) with
      | Except.error e => Except.error e
      | Except.ok σ2 => Except.ok (σ2, (_nested_list_shallow_copy σ H).2) := rfl

theorem plug_ok {σ : Store} {H : List HEntry} {controls : List Obj}
    {mapping : List (List Nat)} {σ2 : Store} {H2 : List HEntry}
    (h : _plug_in_optimized_controls σ H controls mapping =
      Except.ok (σ2, H2)) :
    storeLe σ σ2 ∧ H2.length = H.length ∧
      (∀ a : Addr, HEntry.pair a ∈ H2 → σ.length ≤ a ∧ a < σ2.length) := by
  have cf := copy_facts H σ
  rw [plug_def] at h
  revert h
  cases hs : plugLoop (_nested_list_shallow_copy σ H).2
      (_nested_list_shallow_copy σ H).1 (controls.zip mapping) with
  | error e => intro h; cases h
  | ok σ3 =>
      intro h
      have hinj := Except.ok.inj h
      have hσ : σ3 = σ2 := congrArg Prod.fst hinj
      have hH : (_nested_list_shallow_copy σ H).2 = H2 :=
        congrArg Prod.snd hinj
      subst hσ
      subst hH
      rcases plugLoop_ok_frame hs with ⟨hl, hf⟩
      have hfresh : ∀ a : Addr,
          HEntry.pair a ∈ (_nested_list_shallow_copy σ H).2 →
            σ.length ≤ a ∧ a < σ3.length := by
        intro a ha
        rcases List.mem_iff_getElem?.mp ha with ⟨p, hp2⟩
        rcases cf.freshF p a hp2 with ⟨h1, h2⟩
        exact ⟨h1, by rw [hl]; exact h2⟩
      refine ⟨⟨?_, ?_⟩, cf.len, hfresh⟩
      · rw [hl]
        exact cf.le.1
      · intro b hb
        rw [hf b ?_, cf.le.2 b hb]
        intro a ha
        exact Nat.ne_of_lt (lt_of_lt_of_le hb (hfresh a ha).1)

theorem sim_plug {σ : Store} {H : List HEntry} {V : List EVal}
    (controls : List Obj) (mapping : List (List Nat))
    (h : resolveH σ H = some V) :
    PlugSim σ H (_plug_in_optimized_controls σ H controls mapping)
      (pure_plug V controls mapping) := by
  have hsim := copy_simRel h
  have hloop := sim_plugLoop hsim (controls.zip mapping)
  rw [plug_def]
  unfold pure_plug
  cases hs : plugLoop (_nested_list_shallow_copy σ H).2
      (_nested_list_shallow_copy σ H).1 (controls.zip mapping) with
  | error e =>
      cases hp : purePlugLoop V (controls.zip mapping) with
      | error e2 =>
          rw [hs, hp] at hloop
          exact hloop
      | ok V2 =>
          rw [hs, hp] at hloop
          exact hloop.elim
  | ok σ2 =>
      cases hp : purePlugLoop V (controls.zip mapping) with
      | error e2 =>
          rw [hs, hp] at hloop
          exact hloop.elim
      | ok V2 =>
          rw [hs, hp] at hloop
          have hok : _plug_in_optimized_controls σ H controls mapping =
              Except.ok (σ2, (_nested_list_shallow_copy σ H).2) := by
            rw [plug_def, hs]
          rcases plug_ok hok with ⟨hle, hlen, hfresh⟩
          exact ⟨simRel_resolveH hloop, hle, hlen, hfresh⟩

theorem goodIdx_iff {V : List EVal} {p : Nat} :
    goodIdx V p ↔ ∃ l, V[p]? = some (EVal.lst l) ∧ 2 ≤ l.length := by
  unfold goodIdx slotLen
  cases h : V[p]? with
  | none => simp
  | some v =>
      cases v with
      | op o => simp
      | lst l =>
          constructor
          · intro h2
            exact ⟨l, rfl, h2⟩
          · intro h2
            rcases h2 with ⟨l2, hl2, h3⟩
            cases EVal.lst.inj (Option.some.inj hl2)
            exact h3

theorem pureSet_good {V : List EVal} {i : Nat} (c : Obj) (h : goodIdx V i) :
    ∃ l, V[i]? = some (EVal.lst l) ∧ 2 ≤ l.length ∧
      pureSetControlAt V i c = Except.ok (V.set i (EVal.lst (l.set 1 c))) := by
  rcases goodIdx_iff.mp h with ⟨l, hl, h2⟩
  refine ⟨l, hl, h2, ?_⟩
  unfold pureSetControlAt
  rw [hl]
  show (if 1 < l.length then Except.ok (V.set i (EVal.lst (l.set 1 c)))
    else Except.error "IndexError: list assignment index out of range") = _
  exact if_pos h2

theorem pureSet_ok_inv {V V2 : List EVal} {i : Nat} {c : Obj}
    (h : pureSetControlAt V i c = Except.ok V2) :
    ∃ l, V[i]? = some (EVal.lst l) ∧ 2 ≤ l.length ∧
      V2 = V.set i (EVal.lst (l.set 1 c)) := by
  unfold pureSetControlAt at h
  split at h
  · cases h
  · cases h
  · rename_i l hVi
    split at h
    · exact ⟨l, hVi, by assumption, (Except.ok.inj h).symm⟩
    · cases h

theorem pureSet_slotLen {V V2 : List EVal} {i : Nat} {c : Obj}
    (h : pureSetControlAt V i c = Except.ok V2) (p : Nat) :
    slotLen V2 p = slotLen V p := by
  rcases pureSet_ok_inv h with ⟨l, hl, h2, heq⟩
  subst heq
  by_cases hpi : p = i
  · subst hpi
    unfold slotLen
    rw [List.getElem?_set_self (getElem?_lt hl), hl]
    simp
  · unfold slotLen
    rw [List.getElem?_set_ne (Ne.symm hpi)]

theorem pureWriteControl_spec {c : Obj} {V : List EVal} {cm : List Nat}
    (hv : ∀ p ∈ cm, goodIdx V p) :
    ∃ V2, pureWriteControl c V cm = Except.ok V2 ∧ V2.length = V.length ∧
      (∀ p : Nat, slotLen V2 p = slotLen V p) ∧
      (∀ p : Nat, ¬ p ∈ cm → V2[p]? = V[p]?) ∧
      (∀ p ∈ cm, ∀ l, V[p]? = some (EVal.lst l) →
        V2[p]? = some (EVal.lst (l.set 1 c))) := by
  induction cm generalizing V with
  | nil =>
      exact ⟨V, rfl, rfl, fun _ => rfl, fun _ _ => rfl,
        fun p hp => absurd hp (List.not_mem_nil p)⟩
  | cons i rest ih =>
      have hgi : goodIdx V i := hv i (List.mem_cons_self _ _)
      rcases pureSet_good c hgi with ⟨l, hl, hl2, hset⟩
      have hv1 : ∀ p ∈ rest, goodIdx (V.set i (EVal.lst (l.set 1 c))) p := by
        intro p hp
        unfold goodIdx
        rw [pureSet_slotLen hset p]
        exact hv p (List.mem_cons_of_mem _ hp)
      rcases ih hv1 with ⟨V2, hw, hlen, hslot, hunt, htar⟩
      refine ⟨V2, ?_, by rw [hlen]; simp, ?_, ?_, ?_⟩
      · simp only [pureWriteControl]
        rw [hset]
        exact hw
      · intro p
        rw [hslot p, pureSet_slotLen hset p]
      · intro p hp
        have hpi : p ≠ i := fun he => hp (he ▸ List.mem_cons_self _ _)
        rw [hunt p (fun hm => hp (List.mem_cons_of_mem _ hm)),
          List.getElem?_set_ne (Ne.symm hpi)]
      · intro p hp l2 hVp
        by_cases hpi : p = i
        · subst hpi
          rw [hl] at hVp
          cases EVal.lst.inj (Option.some.inj hVp)
          have hv1i : (V.set p (EVal.lst (l.set 1 c)))[p]? =
              some (EVal.lst (l.set 1 c)) :=
            List.getElem?_set_self (getElem?_lt hl)
          by_cases hir : p ∈ rest
          · have h2 := htar p hir (l.set 1 c) hv1i
            rw [List.set_set] at h2
            exact h2
          · rw [hunt p hir]
            exact hv1i
        · have hpr : p ∈ rest := by
            rcases List.mem_cons.mp hp with h | h
            · exact absurd h hpi
            · exact h
          have hV1p : (V.set i (EVal.lst (l.set 1 c)))[p]? = V[p]? :=
            List.getElem?_set_ne (Ne.symm hpi)
          exact htar p hpr l2 (by rw [hV1p]; exact hVp)

theorem purePlugLoop_spec {V : List EVal} {pairs : List (Obj × List Nat)}
    (hv : ∀ pr ∈ pairs, ∀ p ∈ pr.2, goodIdx V p)
    (hcoh : ∀ pr ∈ pairs, ∀ pr2 ∈ pairs, ∀ p : Nat,
      p ∈ pr.2 → p ∈ pr2.2 → pr.1 = pr2.1) :
    ∃ V2, purePlugLoop V pairs = Except.ok V2 ∧ V2.length = V.length ∧
      (∀ p : Nat, slotLen V2 p = slotLen V p) ∧
      (∀ p : Nat, (∀ pr ∈ pairs, ¬ p ∈ pr.2) → V2[p]? = V[p]?) ∧
      (∀ pr ∈ pairs, ∀ p ∈ pr.2, ∀ l, V[p]? = some (EVal.lst l) →
        V2[p]? = some (EVal.lst (l.set 1 pr.1))) := by
  induction pairs generalizing V with
  | nil =>
      exact ⟨V, rfl, rfl, fun _ => rfl, fun _ _ => rfl,
        fun pr hpr => absurd hpr (List.not_mem_nil pr)⟩
  | cons pr0 rest ih =>
      rcases pr0 with ⟨c0, cm0⟩
      rcases pureWriteControl_spec
          (hv (c0, cm0) (List.mem_cons_self _ _)) with
        ⟨V1, hw, hlen1, hslot1, hunt1, htar1⟩
      have hv1 : ∀ pr ∈ rest, ∀ p ∈ pr.2, goodIdx V1 p := by
        intro pr hpr p hp
        unfold goodIdx
        rw [hslot1 p]
        exact hv pr (List.mem_cons_of_mem _ hpr) p hp
      have hcoh1 : ∀ pr ∈ rest, ∀ pr2 ∈ rest, ∀ p : Nat,
          p ∈ pr.2 → p ∈ pr2.2 → pr.1 = pr2.1 := by
        intro pr hpr pr2 hpr2 p h1 h2
        exact hcoh pr (List.mem_cons_of_mem _ hpr) pr2
          (List.mem_cons_of_mem _ hpr2) p h1 h2
      rcases ih hv1 hcoh1 with ⟨V2, hpl, hlen2, hslot2, hunt2, htar2⟩
      refine ⟨V2, ?_, by rw [hlen2, hlen1], fun p => by
        rw [hslot2 p, hslot1 p], ?_, ?_⟩
      · simp only [purePlugLoop]
        rw [hw]
        exact hpl
      · intro p hp
        rw [hunt2 p (fun pr2 h2 => hp pr2 (List.mem_cons_of_mem _ h2)),
          hunt1 p (hp (c0, cm0) (List.mem_cons_self _ _))]
      · intro pr hpr p hpP l hVp
        rcases List.mem_cons.mp hpr with hpr0 | hprR
        · subst hpr0
          have hV1p : V1[p]? = some (EVal.lst (l.set 1 c0)) :=
            htar1 p hpP l hVp
          by_cases hR : ∃ pr2 ∈ rest, p ∈ pr2.2
          · rcases hR with ⟨pr2, hpr2, hp2⟩
            have hc : c0 = pr2.1 :=
              hcoh (c0, cm0) (List.mem_cons_self _ _) pr2
                (List.mem_cons_of_mem _ hpr2) p hpP hp2
            have h2 := htar2 pr2 hpr2 p hp2 (l.set 1 c0) hV1p
            rw [List.set_set] at h2
            rw [← hc] at h2
            exact h2
          · rw [hunt2 p (fun pr2 h2 hmem => hR ⟨pr2, h2, hmem⟩)]
            exact hV1p
        · by_cases hp0 : p ∈ cm0
          · have hc : c0 = pr.1 :=
              hcoh (c0, cm0) (List.mem_cons_self _ _) pr
                (List.mem_cons_of_mem _ hprR) p hp0 hpP
            have hV1p := htar1 p hp0 l hVp
            have h2 := htar2 pr hprR p hpP (l.set 1 c0) hV1p
            rw [List.set_set] at h2
            exact h2
          · have hV1p : V1[p]? = V[p]? := hunt1 p hp0
            exact htar2 pr hprR p hpP l (by rw [hV1p]; exact hVp)

theorem purePlugLoop_perm {V : List EVal} {pairs pairs2 : List (Obj × List Nat)}
    (hperm : pairs2.Perm pairs)
    (hv : ∀ pr ∈ pairs, ∀ p ∈ pr.2, goodIdx V p)
    (hcoh : ∀ pr ∈ pairs, ∀ pr2 ∈ pairs, ∀ p : Nat,
      p ∈ pr.2 → p ∈ pr2.2 → pr.1 = pr2.1) :
    purePlugLoop V pairs2 = purePlugLoop V pairs := by
  have hv2 : ∀ pr ∈ pairs2, ∀ p ∈ pr.2, goodIdx V p :=
    fun pr h => hv pr (hperm.mem_iff.mp h)
  have hcoh2 : ∀ pr ∈ pairs2, ∀ pr2 ∈ pairs2, ∀ p : Nat,
      p ∈ pr.2 → p ∈ pr2.2 → pr.1 = pr2.1 :=
    fun pr h pr2 h2 => hcoh pr (hperm.mem_iff.mp h) pr2 (hperm.mem_iff.mp h2)
  rcases purePlugLoop_spec hv hcoh with ⟨V2, h1, hlen, _, hunt, htar⟩
  rcases purePlugLoop_spec hv2 hcoh2 with ⟨V2b, h1b, hlenb, _, huntb, htarb⟩
  rw [h1, h1b]
  have : V2b = V2 := by
    apply List.ext_getElem?
    intro p
    by_cases hT : ∃ pr ∈ pairs, p ∈ pr.2
    · rcases hT with ⟨pr, hpr, hp⟩
      have hg := hv pr hpr p hp
      rcases goodIdx_iff.mp hg with ⟨l, hl, _⟩
      rw [htar pr hpr p hp l hl, htarb pr (hperm.mem_iff.mpr hpr) p hp l hl]
    · rw [hunt p (fun pr h hm => hT ⟨pr, h, hm⟩),
        huntb p (fun pr h hm => hT ⟨pr, hperm.mem_iff.mp h, hm⟩)]
  rw [this]

theorem bind_ok_eq {α β : Type} (a : α) (f : α → Except String β) :
    (Except.ok a >>= f) = f a := rfl

theorem bind_error_eq {α β : Type} (e : String) (f : α → Except String β) :
    ((Except.error e : Except String α) >>= f) = Except.error e := rfl

theorem badAt_storeLe {σ σ2 : Store} {H : List HEntry} {p : Nat}
    (hle : storeLe σ σ2) (h : badAt σ H p) : badAt σ2 H p := by
  rcases h with h | h | ⟨a, l, h1, h2, h3⟩
  · exact Or.inl h
  · exact Or.inr (Or.inl h)
  · refine Or.inr (Or.inr ⟨a, l, h1, ?_, h3⟩)
    rw [hle.2 a (getElem?_lt h2)]
    exact h2

theorem badAt_not_set {σ σ2 : Store} {H : List HEntry} {p : Nat} {c : Obj}
    (hset : setControlAt σ H p c = Except.ok σ2) (h : badAt σ H p) :
    False := by
  rcases setControlAt_ok hset with ⟨a, cell, h1, h2, h3, _⟩
  rcases h with h | ⟨o, h⟩ | ⟨a2, l, h4, h5, h6⟩
  · rw [h1] at h
    cases h
  · rw [h1] at h
    exact HEntry.noConfusion (Option.some.inj h)
  · rw [h1] at h4
    cases HEntry.pair.inj (Option.some.inj h4)
    rw [h2] at h5
    cases Option.some.inj h5
    omega

theorem badAt_set {σ σ2 : Store} {H : List HEntry} {i p : Nat} {c : Obj}
    (hset : setControlAt σ H i c = Except.ok σ2) (h : badAt σ H p) :
    badAt σ2 H p := by
  rcases setControlAt_ok hset with ⟨a, cell, h1, h2, h3, heq⟩
  subst heq
  rcases h with h | h | ⟨a2, l, h4, h5, h6⟩
  · exact Or.inl h
  · exact Or.inr (Or.inl h)
  · refine Or.inr (Or.inr ?_)
    by_cases haa : a2 = a
    · subst haa
      rw [h2] at h5
      cases Option.some.inj h5
      omega
    · refine ⟨a2, l, h4, ?_, h6⟩
      rw [List.getElem?_set_ne (Ne.symm haa)]
      exact h5

theorem badAt_write {σ σ2 : Store} {H : List HEntry} {c : Obj}
    {cm : List Nat} {p : Nat} (hw : writeControl H c σ cm = Except.ok σ2)
    (h : badAt σ H p) : badAt σ2 H p := by
  induction cm generalizing σ with
  | nil =>
      cases Except.ok.inj hw
      exact h
  | cons i rest ih =>
      unfold writeControl at hw
      split at hw
      · cases hw
      · rename_i σmid hset
        exact ih hw (badAt_set hset h)

theorem writeControl_bad {σ : Store} {H : List HEntry} {c : Obj}
    {cm : List Nat} {p : Nat} (h : badAt σ H p) (hp : p ∈ cm) :
    ∃ e, writeControl H c σ cm = Except.error e := by
  induction cm generalizing σ with
  | nil => exact absurd hp (List.not_mem_nil p)
  | cons i rest ih =>
      cases hs : setControlAt σ H i c with
      | error e =>
          refine ⟨e, ?_⟩
          simp only [writeControl]
          rw [hs]
      | ok σ2 =>
          rcases List.mem_cons.mp hp with hpe | hpr
          · subst hpe
            exact absurd h (fun hb => badAt_not_set hs hb)
          · rcases ih (badAt_set hs h) hpr with ⟨e, he⟩
            refine ⟨e, ?_⟩
            simp only [writeControl]
            rw [hs]
            exact he

theorem plugLoop_bad {σ : Store} {H : List HEntry}
    {pairs : List (Obj × List Nat)} {c : Obj} {cm : List Nat} {p : Nat}
    (h : badAt σ H p) (hmem : (c, cm) ∈ pairs) (hp : p ∈ cm) :
    ∃ e, plugLoop H σ pairs = Except.error e := by
  induction pairs generalizing σ with
  | nil => exact absurd hmem (List.not_mem_nil _)
  | cons pr0 rest ih =>
      rcases pr0 with ⟨c0, cm0⟩
      cases hs : writeControl H c0 σ cm0 with
      | error e =>
          refine ⟨e, ?_⟩
          simp only [plugLoop]
          rw [hs]
      | ok σ2 =>
          rcases List.mem_cons.mp hmem with hpe | hpr
          · have hcm : cm = cm0 := congrArg Prod.snd hpe
            rcases writeControl_bad (c := c0) h (hcm ▸ hp) with ⟨e, he⟩
            rw [he] at hs
            cases hs
          · rcases ih (badAt_write hs h) hpr with ⟨e, he⟩
            refine ⟨e, ?_⟩
            simp only [plugLoop]
            rw [hs]
            exact he

theorem badAt_copy {σ : Store} {H : List HEntry} {p : Nat}
    (h : badAt σ H p) :
    badAt (_nested_list_shallow_copy σ H).1
      (_nested_list_shallow_copy σ H).2 p := by
  have cf := copy_facts H σ
  rcases h with h | ⟨o, h⟩ | ⟨a, l, h1, h2, h3⟩
  · refine Or.inl ?_
    rw [List.getElem?_eq_none_iff] at h ⊢
    rw [cf.len]
    exact h
  · exact Or.inr (Or.inl ⟨o, cf.atomF p o h⟩)
  · have ha : a < σ.length := getElem?_lt h2
    rcases cf.pairF p a h1 ha with ⟨a2, hp2, _, hval⟩
    refine Or.inr (Or.inr ⟨a2, l, hp2, ?_, h3⟩)
    rw [hval]
    exact h2

theorem plug_bad {σ : Store} {H : List HEntry} {controls : List Obj}
    {mapping : List (List Nat)} {c : Obj} {cm : List Nat} {p : Nat}
    (h : badAt σ H p) (hmem : (c, cm) ∈ controls.zip mapping) (hp : p ∈ cm) :
    ∃ e, _plug_in_optimized_controls σ H controls mapping =
      Except.error e := by
  rcases plugLoop_bad (badAt_copy h) hmem hp with ⟨e, he⟩
  refine ⟨e, ?_⟩
  rw [plug_def, he]

theorem cOpsLoop_ok_le {controls : List Obj} {cmi : List (List (List Nat))}
    {σ : Store} {j : Nat} {cops : List (List HEntry)}
    {pr : Store × List (List HEntry)}
    (h : cOpsLoop controls cmi σ j cops = Except.ok pr) : storeLe σ pr.1 := by
  induction cops generalizing σ j pr with
  | nil =>
      unfold cOpsLoop at h
      cases Except.ok.inj h
      exact storeLe_refl σ
  | cons c0 rest ih =>
      simp only [cOpsLoop] at h
      cases hg : pyGet cmi (j + 1) with
      | error e => rw [hg, bind_error_eq] at h; cases h
      | ok cm =>
          rw [hg, bind_ok_eq] at h
          cases hpl : _plug_in_optimized_controls σ c0 controls cm with
          | error e => rw [hpl, bind_error_eq] at h; cases h
          | ok pr2 =>
              rw [hpl, bind_ok_eq] at h
              cases hrr : cOpsLoop controls cmi pr2.1 (j + 1) rest with
              | error e => rw [hrr, bind_error_eq] at h; cases h
              | ok rr =>
                  rw [hrr, bind_ok_eq] at h
                  cases Except.ok.inj h
                  have hx := ih hrr
                  exact storeLe_trans (plug_ok hpl).1 hx

theorem cOpsLoop_bad {controls : List Obj} {cmi : List (List (List Nat))}
    {σ : Store} {m : Nat} {cops : List (List HEntry)} {k : Nat}
    {cop : List HEntry} {cmk : List (List Nat)} {c : Obj} {cm : List Nat}
    {p : Nat}
    (hcop : cops[k]? = some cop)
    (hcmk : cmi[m + 1 + k]? = some cmk)
    (hmem : (c, cm) ∈ controls.zip cmk)
    (hp : p ∈ cm)
    (hbad : badAt σ cop p) :
    ∃ e, cOpsLoop controls cmi σ m cops = Except.error e := by
  induction cops generalizing σ m k with
  | nil => simp at hcop
  | cons c0 rest ih =>
      cases k with
      | zero =>
          simp only [List.getElem?_cons_zero] at hcop
          cases Option.some.inj hcop
          have hg : pyGet cmi (m + 1) = Except.ok cmk :=
            pyGet_ok.mpr (by simpa using hcmk)
          rcases plug_bad hbad hmem hp with ⟨e, he⟩
          refine ⟨e, ?_⟩
          simp only [cOpsLoop]
          rw [hg, bind_ok_eq, he, bind_error_eq]
      | succ k2 =>
          simp only [List.getElem?_cons_succ] at hcop
          have hidx : m + 1 + (k2 + 1) = (m + 1) + 1 + k2 := by omega
          rw [hidx] at hcmk
          cases hg : pyGet cmi (m + 1) with
          | error e =>
              refine ⟨e, ?_⟩
              simp only [cOpsLoop]
              rw [hg, bind_error_eq]
          | ok cm1 =>
              cases hplug : _plug_in_optimized_controls σ c0 controls
                  cm1 with
              | error e =>
                  refine ⟨e, ?_⟩
                  simp only [cOpsLoop]
                  rw [hg, bind_ok_eq, hplug, bind_error_eq]
              | ok pr =>
                  have hle : storeLe σ pr.1 := (plug_ok hplug).1
                  rcases ih hcop hcmk (badAt_storeLe hle hbad) with ⟨e, he⟩
                  refine ⟨e, ?_⟩
                  simp only [cOpsLoop]
                  rw [hg, bind_ok_eq, hplug, bind_ok_eq, he, bind_error_eq]

theorem objLoop_bad {controls : List Obj}
    {cmap : List (List (List (List Nat)))} {σ : Store} {idx j : Nat}
    {objs : List Objective} {obj : Objective}
    {cmi : List (List (List Nat))} {d : Nat} {term : List HEntry}
    {cmd : List (List Nat)} {c : Obj} {cm : List Nat} {p : Nat}
    (hobj : objs[j]? = some obj)
    (hcmi : cmap[idx + j]? = some cmi)
    (hterm : (d = 0 ∧ term = obj.H) ∨
      (∃ k : Nat, d = k + 1 ∧ obj.c_ops[k]? = some term))
    (hcmd : cmi[d]? = some cmd)
    (hmem : (c, cm) ∈ controls.zip cmd)
    (hp : p ∈ cm)
    (hbad : badAt σ term p) :
    ∃ e, objLoop controls cmap σ idx objs = Except.error e := by
  induction objs generalizing σ idx j with
  | nil => simp at hobj
  | cons obj0 rest ih =>
      cases j with
      | zero =>
          simp only [List.getElem?_cons_zero] at hobj
          cases Option.some.inj hobj
          have hg1 : pyGet cmap idx = Except.ok cmi :=
            pyGet_ok.mpr (by simpa using hcmi)
          rcases hterm with ⟨hd0, hteq⟩ | ⟨k, hdk, hcop⟩
          · subst hd0
            subst hteq
            have hg2 : pyGet cmi 0 = Except.ok cmd := pyGet_ok.mpr hcmd
            rcases plug_bad hbad hmem hp with ⟨e, he⟩
            refine ⟨e, ?_⟩
            simp only [objLoop]
            rw [hg1, bind_ok_eq, hg2, bind_ok_eq, he, bind_error_eq]
          · subst hdk
            cases hg2 : pyGet cmi 0 with
            | error e =>
                refine ⟨e, ?_⟩
                simp only [objLoop]
                rw [hg1, bind_ok_eq, hg2, bind_error_eq]
            | ok cm0 =>
                cases hplug : _plug_in_optimized_controls σ obj.H
                    controls cm0 with
                | error e =>
                    refine ⟨e, ?_⟩
                    simp only [objLoop]
                    rw [hg1, bind_ok_eq, hg2, bind_ok_eq, hplug,
                      bind_error_eq]
                | ok pr =>
                    have hle : storeLe σ pr.1 := (plug_ok hplug).1
                    have hadd : (0 : Nat) + 1 + k = k + 1 := by omega
                    have hcmk : cmi[(0 : Nat) + 1 + k]? = some cmd := by
                      rw [hadd]
                      exact hcmd
                    rcases cOpsLoop_bad hcop hcmk hmem hp
                      (badAt_storeLe hle hbad) with ⟨e, he⟩
                    refine ⟨e, ?_⟩
                    simp only [objLoop]
                    rw [hg1, bind_ok_eq, hg2, bind_ok_eq, hplug,
                      bind_ok_eq, he, bind_error_eq]
      | succ j2 =>
          simp only [List.getElem?_cons_succ] at hobj
          have hidx : idx + (j2 + 1) = (idx + 1) + j2 := by omega
          rw [hidx] at hcmi
          cases hg1 : pyGet cmap idx with
          | error e =>
              refine ⟨e, ?_⟩
              simp only [objLoop]
              rw [hg1, bind_error_eq]
          | ok cmi0 =>
              cases hg2 : pyGet cmi0 0 with
              | error e =>
                  refine ⟨e, ?_⟩
                  simp only [objLoop]
                  rw [hg1, bind_ok_eq, hg2, bind_error_eq]
              | ok cm00 =>
                  cases hplug : _plug_in_optimized_controls σ obj0.H
                      controls cm00 with
                  | error e =>
                      refine ⟨e, ?_⟩
                      simp only [objLoop]
                      rw [hg1, bind_ok_eq, hg2, bind_ok_eq, hplug,
                        bind_error_eq]
                  | ok pr =>
                      cases hcops : cOpsLoop controls cmi0 pr.1 0
                          obj0.c_ops with
                      | error e =>
                          refine ⟨e, ?_⟩
                          simp only [objLoop]
                          rw [hg1, bind_ok_eq, hg2, bind_ok_eq, hplug,
                            bind_ok_eq, hcops, bind_error_eq]
                      | ok cr =>
                          have hle : storeLe σ cr.1 :=
                            storeLe_trans (plug_ok hplug).1
                              (cOpsLoop_ok_le hcops)
                          rcases ih hobj hcmi (badAt_storeLe hle hbad) with
                            ⟨e, he⟩
                          refine ⟨e, ?_⟩
                          simp only [objLoop]
                          rw [hg1, bind_ok_eq, hg2, bind_ok_eq, hplug,
                            bind_ok_eq, hcops, bind_ok_eq, he,
                            bind_error_eq]

theorem sim_cOpsLoop (controls : List Obj) (cmi : List (List (List Nat)))
    {σ : Store} {j : Nat} {cops : List (List HEntry)}
    {Vcs : List (List EVal)} (h : resolveHs σ cops = some Vcs) :
    CopsSim σ (cOpsLoop controls cmi σ j cops)
      (pureCopsLoop controls cmi j Vcs) := by
  induction cops generalizing σ j Vcs with
  | nil =>
      simp only [resolveHs] at h
      cases Option.some.inj h
      exact ⟨storeLe_refl σ, rfl⟩
  | cons c0 rest ih =>
      rw [resolveHs_cons] at h
      rcases Option.bind_eq_some.mp h with ⟨v0, hv0, h2⟩
      rcases Option.bind_eq_some.mp h2 with ⟨vs, hvs, h3⟩
      cases Option.some.inj h3
      simp only [cOpsLoop, pureCopsLoop]
      cases hg : pyGet cmi (j + 1) with
      | error e =>
          simp only [bind_error_eq]
          exact rfl
      | ok cm =>
          simp only [bind_ok_eq]
          have hplug := sim_plug controls cm hv0
          cases hpl : _plug_in_optimized_controls σ c0 controls cm with
          | error e =>
              cases hpp : pure_plug v0 controls cm with
              | error e2 =>
                  rw [hpl, hpp] at hplug
                  simp only [bind_error_eq]
                  exact hplug
              | ok V2 =>
                  rw [hpl, hpp] at hplug
                  exact hplug.elim
          | ok pr2 =>
              cases hpp : pure_plug v0 controls cm with
              | error e2 =>
                  rw [hpl, hpp] at hplug
                  exact hplug.elim
              | ok V2 =>
                  rw [hpl, hpp] at hplug
                  rcases hplug with ⟨hresH, hle2, _, _⟩
                  simp only [bind_ok_eq]
                  have hvs2 : resolveHs pr2.1 rest = some vs := by
                    rw [resolveHs_congr hle2 (resolveHs_wfHs hvs)]
                    exact hvs
                  have hrest := ih (j := j + 1) hvs2
                  cases hrr : cOpsLoop controls cmi pr2.1 (j + 1) rest with
                  | error e =>
                      cases hpr : pureCopsLoop controls cmi (j + 1) vs with
                      | error e2 =>
                          rw [hrr, hpr] at hrest
                          simp only [bind_error_eq]
                          exact hrest
                      | ok Vs3 =>
                          rw [hrr, hpr] at hrest
                          exact hrest.elim
                  | ok rr =>
                      cases hpr : pureCopsLoop controls cmi (j + 1) vs with
                      | error e2 =>
                          rw [hrr, hpr] at hrest
                          exact hrest.elim
                      | ok Vs3 =>
                          rw [hrr, hpr] at hrest
                          rcases hrest with ⟨hle3, hres3⟩
                          simp only [bind_ok_eq]
                          refine ⟨storeLe_trans hle2 hle3, ?_⟩
                          rw [resolveHs_cons]
                          have hresH2 : resolveH rr.1 pr2.2 = some V2 := by
                            rw [resolveH_congr hle3 (resolveH_wfH hresH)]
                            exact hresH
                          rw [hresH2, hres3]
                          rfl

theorem sim_objLoop {controls : List Obj}
    {cmap : List (List (List (List Nat)))} {σ : Store} {i : Nat}
    {objs : List Objective} {R : List RObjective}
    (h : resolveObjectives σ objs = some R) :
    ObjsSim σ (objLoop controls cmap σ i objs)
      (pureObjLoop controls cmap i R) := by
  induction objs generalizing σ i R with
  | nil =>
      simp only [resolveObjectives] at h
      cases Option.some.inj h
      exact ⟨storeLe_refl σ, rfl⟩
  | cons obj0 rest ih =>
      rw [resolveObjectives_cons] at h
      rcases Option.bind_eq_some.mp h with ⟨ro0, hro0, h2⟩
      rcases Option.bind_eq_some.mp h2 with ⟨rs, hrs, h3⟩
      cases Option.some.inj h3
      have hinv := resolveObjective_inv hro0
      simp only [objLoop, pureObjLoop]
      cases hg1 : pyGet cmap i with
      | error e =>
          simp only [bind_error_eq]
          exact rfl
      | ok cmi =>
          simp only [bind_ok_eq]
          cases hg2 : pyGet cmi 0 with
          | error e =>
              simp only [bind_error_eq]
              exact rfl
          | ok cm0 =>
              simp only [bind_ok_eq]
              have hplug := sim_plug controls cm0 hinv.1
              cases hpl : _plug_in_optimized_controls σ obj0.H
                  controls cm0 with
              | error e =>
                  cases hpp : pure_plug ro0.H controls cm0 with
                  | error e2 =>
                      rw [hpl, hpp] at hplug
                      simp only [bind_error_eq]
                      exact hplug
                  | ok V2 =>
                      rw [hpl, hpp] at hplug
                      exact hplug.elim
              | ok pr2 =>
                  cases hpp : pure_plug ro0.H controls cm0 with
                  | error e2 =>
                      rw [hpl, hpp] at hplug
                      exact hplug.elim
                  | ok V2 =>
                      rw [hpl, hpp] at hplug
                      rcases hplug with ⟨hresH, hle2, _, _⟩
                      simp only [bind_ok_eq]
                      have hcs : resolveHs pr2.1 obj0.c_ops =
                          some ro0.c_ops := by
                        rw [resolveHs_congr hle2 (resolveHs_wfHs hinv.2.1)]
                        exact hinv.2.1
                      have hcops := sim_cOpsLoop controls cmi (j := 0) hcs
                      cases hcr : cOpsLoop controls cmi pr2.1 0
                          obj0.c_ops with
                      | error e =>
                          cases hpc : pureCopsLoop controls cmi 0
                              ro0.c_ops with
                          | error e2 =>
                              rw [hcr, hpc] at hcops
                              simp only [bind_error_eq]
                              exact hcops
                          | ok cops2 =>
                              rw [hcr, hpc] at hcops
                              exact hcops.elim
                      | ok cr =>
                          cases hpc : pureCopsLoop controls cmi 0
                              ro0.c_ops with
                          | error e2 =>
                              rw [hcr, hpc] at hcops
                              exact hcops.elim
                          | ok cops2 =>
                              rw [hcr, hpc] at hcops
                              rcases hcops with ⟨hle3, hresC⟩
                              simp only [bind_ok_eq]
                              have hrs2 : resolveObjectives cr.1 rest =
                                  some rs := by
                                rw [resolveObjectives_congr
                                  (storeLe_trans hle2 hle3)
                                  (resolveObjectives_wf hrs)]
                                exact hrs
                              have hrest := ih (i := i + 1) hrs2
                              cases hor : objLoop controls cmap cr.1
                                  (i + 1) rest with
                              | error e =>
                                  cases hpo : pureObjLoop controls cmap
                                      (i + 1) rs with
                                  | error e2 =>
                                      rw [hor, hpo] at hrest
                                      simp only [bind_error_eq]
                                      exact hrest
                                  | ok R3 =>
                                      rw [hor, hpo] at hrest
                                      exact hrest.elim
                              | ok rr =>
                                  cases hpo : pureObjLoop controls cmap
                                      (i + 1) rs with
                                  | error e2 =>
                                      rw [hor, hpo] at hrest
                                      exact hrest.elim
                                  | ok R3 =>
                                      rw [hor, hpo] at hrest
                                      rcases hrest with ⟨hle4, hresR⟩
                                      simp only [bind_ok_eq]
                                      refine ⟨storeLe_trans hle2
                                        (storeLe_trans hle3 hle4), ?_⟩
                                      rw [resolveObjectives_cons]
                                      have hH2 : resolveH rr.1 pr2.2 =
                                          some V2 := by
                                        rw [resolveH_congr
                                          (storeLe_trans hle3 hle4)
                                          (resolveH_wfH hresH)]
                                        exact hresH
                                      have hC2 : resolveHs rr.1 cr.2 =
                                          some cops2 := by
                                        rw [resolveHs_congr hle4
                                          (resolveHs_wfHs hresC)]
                                        exact hresC
                                      have hobj2 := resolveObjective_mk
                                        (o := ⟨pr2.2, obj0.initial_state,
                                          obj0.target_state, cr.2⟩) hH2 hC2
                                      rw [hobj2, hresR]
                                      rw [hinv.2.2.1, hinv.2.2.2]
                                      rfl

theorem pureCopsLoop_get {controls : List Obj}
    {cmi : List (List (List Nat))} {j : Nat} {Vcs Vs2 : List (List EVal)}
    (h : pureCopsLoop controls cmi j Vcs = Except.ok Vs2) :
    Vs2.length = Vcs.length ∧
      ∀ (k : Nat) (v : List EVal), Vcs[k]? = some v →
        ∃ cmk v2, cmi[j + 1 + k]? = some cmk ∧
          pure_plug v controls cmk = Except.ok v2 ∧ Vs2[k]? = some v2 := by
  induction Vcs generalizing j Vs2 with
  | nil =>
      simp only [pureCopsLoop] at h
      cases Except.ok.inj h
      exact ⟨rfl, by intro k v hk; simp at hk⟩
  | cons v0 rest ih =>
      simp only [pureCopsLoop] at h
      cases hg : pyGet cmi (j + 1) with
      | error e =>
          rw [hg, bind_error_eq] at h
          cases h
      | ok cm =>
          rw [hg, bind_ok_eq] at h
          cases hpp : pure_plug v0 controls cm with
          | error e =>
              rw [hpp, bind_error_eq] at h
              cases h
          | ok v2 =>
              rw [hpp, bind_ok_eq] at h
              cases hrr : pureCopsLoop controls cmi (j + 1) rest with
              | error e =>
                  rw [hrr, bind_error_eq] at h
                  cases h
              | ok vs2 =>
                  rw [hrr, bind_ok_eq] at h
                  cases Except.ok.inj h
                  rcases ih hrr with ⟨hlen, hget⟩
                  refine ⟨by simp [hlen], ?_⟩
                  intro k v hk
                  cases k with
                  | zero =>
                      simp only [List.getElem?_cons_zero] at hk
                      cases Option.some.inj hk
                      refine ⟨cm, v2, ?_, hpp, by simp⟩
                      have := pyGet_ok.mp hg
                      simpa using this
                  | succ k2 =>
                      simp only [List.getElem?_cons_succ] at hk ⊢
                      rcases hget k2 v hk with ⟨cmk, v3, h1, h2, h3⟩
                      refine ⟨cmk, v3, ?_, h2, h3⟩
                      have he : j + 1 + (k2 + 1) = (j + 1) + 1 + k2 := by
                        omega
                      rw [he]
                      exact h1

theorem pureObjLoop_get {controls : List Obj}
    {cmap : List (List (List (List Nat)))} {i : Nat}
    {R R2 : List RObjective}
    (h : pureObjLoop controls cmap i R = Except.ok R2) :
    R2.length = R.length ∧
      ∀ (j : Nat) (ro : RObjective), R[j]? = some ro →
        ∃ cmi cm0 H2 cops2, cmap[i + j]? = some cmi ∧ cmi[0]? = some cm0 ∧
          pure_plug ro.H controls cm0 = Except.ok H2 ∧
          pureCopsLoop controls cmi 0 ro.c_ops = Except.ok cops2 ∧
          R2[j]? = some (RObjective.mk H2 ro.initial_state
            ro.target_state cops2) := by
  induction R generalizing i R2 with
  | nil =>
      simp only [pureObjLoop] at h
      cases Except.ok.inj h
      exact ⟨rfl, by intro j ro hj; simp at hj⟩
  | cons ro0 rest ih =>
      simp only [pureObjLoop] at h
      cases hg1 : pyGet cmap i with
      | error e =>
          rw [hg1, bind_error_eq] at h
          cases h
      | ok cmi0 =>
          rw [hg1, bind_ok_eq] at h
          cases hg2 : pyGet cmi0 0 with
          | error e =>
              rw [hg2, bind_error_eq] at h
              cases h
          | ok cm00 =>
              rw [hg2, bind_ok_eq] at h
              cases hpp : pure_plug ro0.H controls cm00 with
              | error e =>
                  rw [hpp, bind_error_eq] at h
                  cases h
              | ok H2 =>
                  rw [hpp, bind_ok_eq] at h
                  cases hpc : pureCopsLoop controls cmi0 0 ro0.c_ops with
                  | error e =>
                      rw [hpc, bind_error_eq] at h
                      cases h
                  | ok cops2 =>
                      rw [hpc, bind_ok_eq] at h
                      cases hrr : pureObjLoop controls cmap (i + 1) rest with
                      | error e =>
                          rw [hrr, bind_error_eq] at h
                          cases h
                      | ok R3 =>
                          rw [hrr, bind_ok_eq] at h
                          cases Except.ok.inj h
                          rcases ih hrr with ⟨hlen, hget⟩
                          refine ⟨by simp [hlen], ?_⟩
                          intro j ro hj
                          cases j with
                          | zero =>
                              simp only [List.getElem?_cons_zero] at hj
                              cases Option.some.inj hj
                              refine ⟨cmi0, cm00, H2, cops2, ?_,
                                pyGet_ok.mp hg2, hpp, hpc, by simp⟩
                              have := pyGet_ok.mp hg1
                              simpa using this
                          | succ j2 =>
                              simp only [List.getElem?_cons_succ] at hj ⊢
                              rcases hget j2 ro hj with
                                ⟨cmi2, cm02, H3, cops3, h1, h2, h3, h4, h5⟩
                              refine ⟨cmi2, cm02, H3, cops3, ?_, h2, h3,
                                h4, h5⟩
                              have he : i + (j2 + 1) = (i + 1) + j2 := by
                                omega
                              rw [he]
                              exact h1

theorem zip_mem_of_get {α β : Type} {l : List α} {l2 : List β} {k : Nat}
    {a : α} {b : β} (h1 : l[k]? = some a) (h2 : l2[k]? = some b) :
    (a, b) ∈ l.zip l2 :=
  List.getElem?_mem (List.getElem?_zip_eq_some.mpr ⟨h1, h2⟩)

theorem zip_get_of_mem {α β : Type} {l : List α} {l2 : List β} {a : α}
    {b : β} (h : (a, b) ∈ l.zip l2) :
    ∃ k : Nat, l[k]? = some a ∧ l2[k]? = some b := by
  rcases List.mem_iff_getElem?.mp h with ⟨k, hk⟩
  exact ⟨k, List.getElem?_zip_eq_some.mp hk⟩

/-- C1, counterexample to the claim as stated: with the valid-shape
conditions alone (`len(M) == len(C)`, positions in range) but positions
overlapping across two different controls, the routine leaves the last
write in place, so `S'[0][1]` is `C[1] = 6` and not `C[0] = 5` as the
universally quantified claim demands. -/
theorem c1_counterexample :
    _plug_in_optimized_controls [[7, 8]] [HEntry.pair 0] [5, 6] [[0], [0]] =
      Except.ok ([[7, 8], [7, 6]], [HEntry.pair 1]) ∧
    resolveH [[7, 8], [7, 6]] [HEntry.pair 1] = some [EVal.lst [7, 6]] ∧
    ¬ ([7, 6] : List Obj)[1]? = some 5 := by
  refine ⟨rfl, rfl, ?_⟩
  decide

/-- C1 (amended): for a structure `S` resolving to `V`, a controls list and
a mapping descriptor of matching length whose positions are all valid write
targets and are disjoint across distinct controls (equivalently: any two
zipped entries sharing a position carry the same control), the substitution
routine succeeds and returns a structure `S2` whose resolved value has
`S2[p][1] = C[k]` for every control index `k` and position `p` in `M[k]`,
while every position not targeted by the mapping keeps its original
value. -/
theorem c1_plug_substitutes {σ : Store} {H : List HEntry} {V : List EVal}
    {controls : List Obj} {mapping : List (List Nat)}
    (hres : resolveH σ H = some V)
    (hlen : mapping.length = controls.length)
    (hvalid : ∀ pr ∈ controls.zip mapping, ∀ p ∈ pr.2, goodIdx V p)
    (hdisj : ∀ pr ∈ controls.zip mapping, ∀ pr2 ∈ controls.zip mapping,
      ∀ p : Nat, p ∈ pr.2 → p ∈ pr2.2 → pr.1 = pr2.1) :
    ∃ σ2 H2 V2,
      _plug_in_optimized_controls σ H controls mapping =
        Except.ok (σ2, H2) ∧
      resolveH σ2 H2 = some V2 ∧
      (∀ (k : Nat) (c : Obj) (cm : List Nat) (p : Nat),
        controls[k]? = some c → mapping[k]? = some cm → p ∈ cm →
        ∃ l2, V2[p]? = some (EVal.lst l2) ∧ l2[1]? = some c) ∧
      (∀ p : Nat, (∀ pr ∈ controls.zip mapping, ¬ p ∈ pr.2) →
        V2[p]? = V[p]?) := by
  rcases purePlugLoop_spec hvalid hdisj with ⟨V2, hok, _, _, hunt, htar⟩
  have hsim := sim_plug controls mapping hres
  cases hpl : _plug_in_optimized_controls σ H controls mapping with
  | error e =>
      rw [hpl] at hsim
      rw [show pure_plug V controls mapping = Except.ok V2 from hok] at hsim
      exact hsim.elim
  | ok pr =>
      obtain ⟨σ2, H2⟩ := pr
      rw [hpl] at hsim
      rw [show pure_plug V controls mapping = Except.ok V2 from hok] at hsim
      rcases hsim with ⟨hres2, _, _, _⟩
      refine ⟨σ2, H2, V2, rfl, hres2, ?_, hunt⟩
      intro k c cm p hc hm hp
      have hmem : (c, cm) ∈ controls.zip mapping := zip_mem_of_get hc hm
      have hg := hvalid (c, cm) hmem p hp
      rcases goodIdx_iff.mp hg with ⟨l, hl, h2l⟩
      have hset := htar (c, cm) hmem p hp l hl
      refine ⟨l.set 1 c, hset, ?_⟩
      have h1l : 1 < l.length := h2l
      rw [List.getElem?_set_self (by simpa using h1l)]

/-- C1 witness: a single control written at a single position. -/
theorem c1_witness :
    ∃ σ2 H2 V2,
      _plug_in_optimized_controls [[7, 8]] [HEntry.pair 0] [5] [[0]] =
        Except.ok (σ2, H2) ∧
      resolveH σ2 H2 = some V2 ∧
      (∀ (k : Nat) (c : Obj) (cm : List Nat) (p : Nat),
        ([5] : List Obj)[k]? = some c →
        ([[0]] : List (List Nat))[k]? = some cm → p ∈ cm →
        ∃ l2, V2[p]? = some (EVal.lst l2) ∧ l2[1]? = some c) ∧
      (∀ p : Nat,
        (∀ pr ∈ ([5] : List Obj).zip ([[0]] : List (List Nat)),
          ¬ p ∈ pr.2) →
        V2[p]? = [EVal.lst [7, 8]][p]?) :=
  c1_plug_substitutes (by rfl) (by rfl) (by decide) (by decide)

/-- C2: on well-formed input, a successful substitution never mutates the
original structure: the store only grows (every pre-existing cell keeps its
address and contents), in particular every inner list of `S` is untouched,
and `S` resolves to exactly the same value before and after the call. -/
theorem c2_no_mutation {σ σ2 : Store} {H H2 : List HEntry} {V : List EVal}
    {controls : List Obj} {mapping : List (List Nat)}
    (hres : resolveH σ H = some V)
    (hok : _plug_in_optimized_controls σ H controls mapping =
      Except.ok (σ2, H2)) :
    storeLe σ σ2 ∧
    (∀ a : Addr, HEntry.pair a ∈ H → σ2[a]? = σ[a]?) ∧
    resolveH σ2 H = some V := by
  rcases plug_ok hok with ⟨hle, _, _⟩
  have hwf := resolveH_wfH hres
  refine ⟨hle, fun a ha => hle.2 a (hwf a ha), ?_⟩
  rw [resolveH_congr hle hwf]
  exact hres

/-- C2 witness: the store cell of the original pair is unchanged by a
successful substitution. -/
theorem c2_witness :
    storeLe [[7, 8]] [[7, 8], [7, 5]] ∧
    (∀ a : Addr, HEntry.pair a ∈ [HEntry.pair 0] →
      ([[7, 8], [7, 5]] : Store)[a]? = ([[7, 8]] : Store)[a]?) ∧
    resolveH [[7, 8], [7, 5]] [HEntry.pair 0] = some [EVal.lst [7, 8]] :=
  @c2_no_mutation [[7, 8]] [[7, 8], [7, 5]] [HEntry.pair 0] [HEntry.pair 1]
    [EVal.lst [7, 8]] [5] [[0]] (by rfl) (by rfl)

/-- C3, counterexample to the claim as stated: a descriptor whose length
(0) disagrees with the number of optimized controls (1) does not make
`optimized_objectives` fail; `zip` silently truncates, the reconstruction
succeeds, and the returned objective still carries the stale control 20
instead of the optimized control 30. -/
theorem c3_counterexample :
    Result.optimized_objectives [[10, 20]]
      { Result.init with
          objectives := [Objective.mk [HEntry.pair 0] 1 2 []]
          optimized_controls := [30]
          controls_mapping := [[[]]] } =
      Except.ok ([[10, 20], [10, 20]],
        [Objective.mk [HEntry.pair 1] 1 2 []]) ∧
    resolveH [[10, 20], [10, 20]] [HEntry.pair 1] =
      some [EVal.lst [10, 20]] ∧
    ¬ (20 : Obj) = 30 := by
  refine ⟨rfl, rfl, ?_⟩
  decide

/-- C3 (amended): if any descriptor of `controls_mapping[i]` — the
generator descriptor `controls_mapping[i][0]` or a collapse-operator
descriptor `controls_mapping[i][j+1]` — references, within its consumed
part, a position that is an invalid write target for the corresponding
term (out of range, a non-list entry, or an inner list without slot 1),
then `optimized_objectives` fails with an exception; a descriptor length
mismatched against the number of controls, however, is silently truncated
by `zip` and raises nothing. -/
theorem c3_invalid_position_fails {σ : Store} {r : Result} {i : Nat}
    {obj : Objective} {cmi : List (List (List Nat))} {d : Nat}
    {term : List HEntry} {cmd : List (List Nat)} {c : Obj} {cm : List Nat}
    {p : Nat}
    (hobj : r.objectives[i]? = some obj)
    (hcmi : r.controls_mapping[i]? = some cmi)
    (hterm : (d = 0 ∧ term = obj.H) ∨
      (∃ k : Nat, d = k + 1 ∧ obj.c_ops[k]? = some term))
    (hcmd : cmi[d]? = some cmd)
    (hmem : (c, cm) ∈ r.optimized_controls.zip cmd)
    (hp : p ∈ cm)
    (hbad : badAt σ term p) :
    ∃ e, Result.optimized_objectives σ r = Except.error e := by
  unfold Result.optimized_objectives
  exact objLoop_bad hobj (by simpa using hcmi) hterm hcmd hmem hp hbad

/-- C3 witness: a collapse-operator descriptor position pointing past the
end of an empty collapse operator makes the reconstruction raise (the
generator descriptor itself is unproblematic here). -/
theorem c3_witness :
    ∃ e, Result.optimized_objectives []
      { Result.init with
          objectives := [Objective.mk [] 1 2 [[]]]
          optimized_controls := [30]
          controls_mapping := [[[], [[0]]]] } = Except.error e :=
  @c3_invalid_position_fails []
    { Result.init with
        objectives := [Objective.mk [] 1 2 [[]]]
        optimized_controls := [30]
        controls_mapping := [[[], [[0]]]] }
    0 (Objective.mk [] 1 2 [[]]) [[], [[0]]] 1 [] [[0]] 30 [0] 0
    (by rfl) (by rfl) (Or.inr ⟨0, rfl, rfl⟩) (by rfl) (by decide)
    (by decide) (Or.inl (by rfl))

/-- C4: a successful `optimized_objectives` returns a new list of the same
length in which every objective carries the initial and target state of the
original by reference (same object), and whose generator term and `j`-th
collapse operator resolve to the pure substitution of the original term's
value with the optimized controls according to `controls_mapping[i][0]`
and `controls_mapping[i][j+1]` respectively. -/
theorem c4_optimized_objectives_build {σ σ2 : Store} {r : Result}
    {objs2 : List Objective} {R : List RObjective}
    (hres : resolveObjectives σ r.objectives = some R)
    (hok : Result.optimized_objectives σ r = Except.ok (σ2, objs2)) :
    objs2.length = r.objectives.length ∧
    ∀ (i : Nat) (obj : Objective), r.objectives[i]? = some obj →
      ∃ obj2, objs2[i]? = some obj2 ∧
        obj2.initial_state = obj.initial_state ∧
        obj2.target_state = obj.target_state ∧
        (∃ cmi cm0 VH VH2, r.controls_mapping[i]? = some cmi ∧
          cmi[0]? = some cm0 ∧ resolveH σ obj.H = some VH ∧
          pure_plug VH r.optimized_controls cm0 = Except.ok VH2 ∧
          resolveH σ2 obj2.H = some VH2) ∧
        obj2.c_ops.length = obj.c_ops.length ∧
        (∀ (j : Nat) (cop : List HEntry), obj.c_ops[j]? = some cop →
          ∃ cmi cmj cop2 Vc Vc2, r.controls_mapping[i]? = some cmi ∧
            cmi[j + 1]? = some cmj ∧ obj2.c_ops[j]? = some cop2 ∧
            resolveH σ cop = some Vc ∧
            pure_plug Vc r.optimized_controls cmj = Except.ok Vc2 ∧
            resolveH σ2 cop2 = some Vc2) := by
  have hsim := @sim_objLoop r.optimized_controls r.controls_mapping σ 0
    r.objectives R hres
  unfold Result.optimized_objectives at hok
  rw [hok] at hsim
  cases hpo : pureObjLoop r.optimized_controls r.controls_mapping 0 R with
  | error e =>
      rw [hpo] at hsim
      exact hsim.elim
  | ok R2 =>
      rw [hpo] at hsim
      rcases hsim with ⟨hle, hres2⟩
      rcases pureObjLoop_get hpo with ⟨hlenR, hget⟩
      have e1 : R2.length = objs2.length := resolveObjectives_length hres2
      have e2 : R.length = r.objectives.length :=
        resolveObjectives_length hres
      have hlen2 : objs2.length = r.objectives.length := by omega
      refine ⟨hlen2, ?_⟩
      intro i obj hobj
      rcases resolveObjectives_get hres hobj with ⟨ro, hro, hRi⟩
      rcases hget i ro hRi with
        ⟨cmi, cm0, H2, cops2, hcmi, hcm0, hplug, hcops, hR2i⟩
      rw [Nat.zero_add] at hcmi
      have hi2 : i < objs2.length := by
        have := getElem?_lt hobj
        omega
      have hobj2some : objs2[i]? = some (objs2[i]) :=
        List.getElem?_eq_getElem hi2
      rcases resolveObjectives_get hres2 hobj2some with ⟨ro2, hro2, hR2i2⟩
      rw [hR2i] at hR2i2
      cases Option.some.inj hR2i2
      have hinv := resolveObjective_inv hro
      have hinv2 := resolveObjective_inv hro2
      have hresH2 : resolveH σ2 (objs2[i]).H = some H2 := hinv2.1
      have hresC2 : resolveHs σ2 (objs2[i]).c_ops = some cops2 := hinv2.2.1
      have hlc : cops2.length = (objs2[i]).c_ops.length :=
        resolveHs_length hresC2
      have hlc2 : ro.c_ops.length = obj.c_ops.length :=
        resolveHs_length hinv.2.1
      have hlc3 : cops2.length = ro.c_ops.length :=
        (pureCopsLoop_get hcops).1
      refine ⟨objs2[i], hobj2some, ?_, ?_, ?_, by omega, ?_⟩
      · exact hinv2.2.2.1.symm.trans hinv.2.2.1
      · exact hinv2.2.2.2.symm.trans hinv.2.2.2
      · exact ⟨cmi, cm0, ro.H, H2, hcmi, hcm0, hinv.1, hplug, hresH2⟩
      · intro j cop hcop
        rcases resolveHs_get hinv.2.1 hcop with ⟨Vc, hVc, hroj⟩
        rcases (pureCopsLoop_get hcops).2 j Vc hroj with
          ⟨cmj, Vc2, hcmj, hplugc, hc2⟩
        have hjlt : j < (objs2[i]).c_ops.length := by
          have := getElem?_lt hc2
          omega
        have hcop2some : (objs2[i]).c_ops[j]? = some ((objs2[i]).c_ops[j]) :=
          List.getElem?_eq_getElem hjlt
        rcases resolveHs_get hresC2 hcop2some with ⟨v2, hv2, hcops2j⟩
        rw [hc2] at hcops2j
        cases Option.some.inj hcops2j
        refine ⟨cmi, cmj, (objs2[i]).c_ops[j], Vc, Vc2, hcmi, ?_,
          hcop2some, hVc, hplugc, hv2⟩
        have he : (0 : Nat) + 1 + j = j + 1 := by omega
        rw [he] at hcmj
        exact hcmj

/-- C4 witness: one objective, one control, substituted into the generator
term. -/
theorem c4_witness :
    ([Objective.mk [HEntry.pair 1] 5 6 []] : List Objective).length =
      ([Objective.mk [HEntry.pair 0] 5 6 []] : List Objective).length ∧
    ∀ (i : Nat) (obj : Objective),
      ([Objective.mk [HEntry.pair 0] 5 6 []] : List Objective)[i]? =
        some obj →
      ∃ obj2, ([Objective.mk [HEntry.pair 1] 5 6 []] :
          List Objective)[i]? = some obj2 ∧
        obj2.initial_state = obj.initial_state ∧
        obj2.target_state = obj.target_state ∧
        (∃ cmi cm0 VH VH2,
          ([[[[0]]]] : List (List (List (List Nat))))[i]? = some cmi ∧
          cmi[0]? = some cm0 ∧ resolveH [[1, 2]] obj.H = some VH ∧
          pure_plug VH [9] cm0 = Except.ok VH2 ∧
          resolveH [[1, 2], [1, 9]] obj2.H = some VH2) ∧
        obj2.c_ops.length = obj.c_ops.length ∧
        (∀ (j : Nat) (cop : List HEntry), obj.c_ops[j]? = some cop →
          ∃ cmi cmj cop2 Vc Vc2,
            ([[[[0]]]] : List (List (List (List Nat))))[i]? = some cmi ∧
            cmi[j + 1]? = some cmj ∧ obj2.c_ops[j]? = some cop2 ∧
            resolveH [[1, 2]] cop = some Vc ∧
            pure_plug Vc [9] cmj = Except.ok Vc2 ∧
            resolveH [[1, 2], [1, 9]] cop2 = some Vc2) :=
  @c4_optimized_objectives_build [[1, 2]] [[1, 2], [1, 9]]
    { Result.init with
        objectives := [Objective.mk [HEntry.pair 0] 5 6 []]
        optimized_controls := [9]
        controls_mapping := [[[[0]]]] }
    [Objective.mk [HEntry.pair 1] 5 6 []]
    [RObjective.mk [EVal.lst [1, 2]] 5 6 []]
    (by rfl) (by rfl)

/-- C5: `optimized_objectives` is read-only and repeatable: a successful
call only extends the store (no cell of the input store is modified, so
neither the objectives nor any control array is mutated), the original
objectives resolve to the same values afterwards, and an immediately
repeated call on the unmodified `Result` succeeds and returns objectives
with exactly the same resolved values. -/
theorem c5_repeat_readonly {σ σ1 : Store} {r : Result}
    {out1 : List Objective} {R : List RObjective}
    (hres : resolveObjectives σ r.objectives = some R)
    (hok : Result.optimized_objectives σ r = Except.ok (σ1, out1)) :
    storeLe σ σ1 ∧
    resolveObjectives σ1 r.objectives = some R ∧
    ∃ σ2 out2 RO,
      Result.optimized_objectives σ1 r = Except.ok (σ2, out2) ∧
      resolveObjectives σ1 out1 = some RO ∧
      resolveObjectives σ2 out2 = some RO := by
  have hsim := @sim_objLoop r.optimized_controls r.controls_mapping σ 0
    r.objectives R hres
  unfold Result.optimized_objectives at hok
  rw [hok] at hsim
  cases hpo : pureObjLoop r.optimized_controls r.controls_mapping 0 R with
  | error e =>
      rw [hpo] at hsim
      exact hsim.elim
  | ok R2 =>
      rw [hpo] at hsim
      rcases hsim with ⟨hle, hres1⟩
      have hres1b : resolveObjectives σ1 r.objectives = some R := by
        rw [resolveObjectives_congr hle (resolveObjectives_wf hres)]
        exact hres
      refine ⟨hle, hres1b, ?_⟩
      have hsim2 := @sim_objLoop r.optimized_controls r.controls_mapping σ1
        0 r.objectives R hres1b
      cases hok2 : objLoop r.optimized_controls r.controls_mapping σ1 0
          r.objectives with
      | error e =>
          rw [hok2, hpo] at hsim2
          exact hsim2.elim
      | ok pr2 =>
          rw [hok2, hpo] at hsim2
          rcases hsim2 with ⟨hle2, hres2⟩
          refine ⟨pr2.1, pr2.2, R2, ?_, hres1, hres2⟩
          unfold Result.optimized_objectives
          rw [hok2]

/-- C5 witness: repeating the reconstruction on the same result object. -/
theorem c5_witness :
    storeLe [[1, 2]] [[1, 2], [1, 9]] ∧
    resolveObjectives [[1, 2], [1, 9]]
      [Objective.mk [HEntry.pair 0] 5 6 []] =
      some [RObjective.mk [EVal.lst [1, 2]] 5 6 []] ∧
    ∃ σ2 out2 RO,
      Result.optimized_objectives [[1, 2], [1, 9]]
        { Result.init with
            objectives := [Objective.mk [HEntry.pair 0] 5 6 []]
            optimized_controls := [9]
            controls_mapping := [[[[0]]]] } = Except.ok (σ2, out2) ∧
      resolveObjectives [[1, 2], [1, 9]]
        [Objective.mk [HEntry.pair 1] 5 6 []] = some RO ∧
      resolveObjectives σ2 out2 = some RO :=
  @c5_repeat_readonly [[1, 2]] [[1, 2], [1, 9]]
    { Result.init with
        objectives := [Objective.mk [HEntry.pair 0] 5 6 []]
        optimized_controls := [9]
        controls_mapping := [[[[0]]]] }
    [Objective.mk [HEntry.pair 1] 5 6 []]
    [RObjective.mk [EVal.lst [1, 2]] 5 6 []]
    (by rfl) (by rfl)

/-- C6: with all-empty mapping descriptors (in particular an empty mapping
when there are no controls), the substitution routine succeeds and returns
a structure value-equal to the original, the original is untouched, and no
inner list of the copy is aliased to an inner list of the original (all
addresses are disjoint), so mutating the copy cannot reach the
original. -/
theorem c6_empty_mapping {σ : Store} {H : List HEntry} {V : List EVal}
    {controls : List Obj} {mapping : List (List Nat)}
    (hres : resolveH σ H = some V)
    (hempty : ∀ cm ∈ mapping, cm = []) :
    ∃ σ2 H2,
      _plug_in_optimized_controls σ H controls mapping =
        Except.ok (σ2, H2) ∧
      resolveH σ2 H2 = some V ∧
      resolveH σ2 H = some V ∧
      ∀ (a a2 : Addr), HEntry.pair a ∈ H → HEntry.pair a2 ∈ H2 →
        ¬ a = a2 := by
  have hvalid : ∀ pr ∈ controls.zip mapping, ∀ p ∈ pr.2, goodIdx V p := by
    intro pr hpr p hp
    rw [hempty pr.2 (List.of_mem_zip hpr).2] at hp
    simp at hp
  have hcoh : ∀ pr ∈ controls.zip mapping, ∀ pr2 ∈ controls.zip mapping,
      ∀ p : Nat, p ∈ pr.2 → p ∈ pr2.2 → pr.1 = pr2.1 := by
    intro pr hpr pr2 hpr2 p hp hp2
    rw [hempty pr.2 (List.of_mem_zip hpr).2] at hp
    simp at hp
  rcases purePlugLoop_spec hvalid hcoh with ⟨V2, hok, _, _, hunt, _⟩
  have hV2 : V2 = V := by
    apply List.ext_getElem?
    intro p
    refine hunt p ?_
    intro pr hpr hm
    rw [hempty pr.2 (List.of_mem_zip hpr).2] at hm
    simp at hm
  rw [hV2] at hok
  have hsim := sim_plug controls mapping hres
  cases hpl : _plug_in_optimized_controls σ H controls mapping with
  | error e =>
      rw [hpl] at hsim
      rw [show pure_plug V controls mapping = Except.ok V from hok]
        at hsim
      exact hsim.elim
  | ok pr =>
      obtain ⟨σ2, H2⟩ := pr
      rw [hpl] at hsim
      rw [show pure_plug V controls mapping = Except.ok V from hok]
        at hsim
      rcases hsim with ⟨hres2, hle, _, hfresh⟩
      refine ⟨σ2, H2, rfl, hres2, ?_, ?_⟩
      · rw [resolveH_congr hle (resolveH_wfH hres)]
        exact hres
      · intro a a2 ha ha2
        have h1 : a < σ.length := resolveH_wfH hres a ha
        have h2 : σ.length ≤ a2 := (hfresh a2 ha2).1
        intro he
        rw [he] at h1
        exact absurd h1 (Nat.not_lt.mpr h2)

/-- C6 witness: empty controls, empty mapping, a fresh value-equal copy. -/
theorem c6_witness :
    ∃ σ2 H2,
      _plug_in_optimized_controls [[3, 4]] [HEntry.pair 0, HEntry.atom 9]
        [] [] = Except.ok (σ2, H2) ∧
      resolveH σ2 H2 = some [EVal.lst [3, 4], EVal.op 9] ∧
      resolveH σ2 [HEntry.pair 0, HEntry.atom 9] =
        some [EVal.lst [3, 4], EVal.op 9] ∧
      ∀ (a a2 : Addr), HEntry.pair a ∈ [HEntry.pair 0, HEntry.atom 9] →
        HEntry.pair a2 ∈ H2 → ¬ a = a2 :=
  c6_empty_mapping (by rfl) (by decide)

/-- C7: for valid write targets with positions disjoint across distinct
control indices, the substitution routine succeeds, its resolved result
equals the pure write sequence on the zipped control/descriptor list, any
permutation of that write sequence produces the same result (iteration
order across controls and across repeated positions is irrelevant), and a
control appearing at two positions of its descriptor ends up written at
both. -/
theorem c7_order_independent {σ : Store} {H : List HEntry} {V : List EVal}
    {controls : List Obj} {mapping : List (List Nat)}
    (hres : resolveH σ H = some V)
    (hvalid : ∀ pr ∈ controls.zip mapping, ∀ p ∈ pr.2, goodIdx V p)
    (hdisj : ∀ (k k2 : Nat) (cm cm2 : List Nat), ¬ k = k2 →
      mapping[k]? = some cm → mapping[k2]? = some cm2 →
      ∀ p : Nat, p ∈ cm → ¬ p ∈ cm2) :
    ∃ σ2 H2 V2,
      _plug_in_optimized_controls σ H controls mapping =
        Except.ok (σ2, H2) ∧
      resolveH σ2 H2 = some V2 ∧
      purePlugLoop V (controls.zip mapping) = Except.ok V2 ∧
      (∀ pairs2 : List (Obj × List Nat),
        pairs2.Perm (controls.zip mapping) →
        purePlugLoop V pairs2 = Except.ok V2) ∧
      (∀ (k : Nat) (c : Obj) (cm : List Nat) (p1 p2 : Nat),
        controls[k]? = some c → mapping[k]? = some cm →
        p1 ∈ cm → p2 ∈ cm →
        ∃ l1 l2, V2[p1]? = some (EVal.lst l1) ∧ l1[1]? = some c ∧
          V2[p2]? = some (EVal.lst l2) ∧ l2[1]? = some c) := by
  have hcoh : ∀ pr ∈ controls.zip mapping, ∀ pr2 ∈ controls.zip mapping,
      ∀ p : Nat, p ∈ pr.2 → p ∈ pr2.2 → pr.1 = pr2.1 := by
    intro pr hpr pr2 hpr2 p hp hp2
    obtain ⟨c, cm⟩ := pr
    obtain ⟨c2, cm2⟩ := pr2
    rcases zip_get_of_mem hpr with ⟨k, hk1, hk2⟩
    rcases zip_get_of_mem hpr2 with ⟨k2, hk12, hk22⟩
    by_cases hkk : k = k2
    · subst hkk
      rw [hk1] at hk12
      exact Option.some.inj hk12
    · exact absurd hp2 (hdisj k k2 cm cm2 hkk hk2 hk22 p hp)
  rcases purePlugLoop_spec hvalid hcoh with ⟨V2, hok, _, _, _, htar⟩
  have hsim := sim_plug controls mapping hres
  cases hpl : _plug_in_optimized_controls σ H controls mapping with
  | error e =>
      rw [hpl] at hsim
      rw [show pure_plug V controls mapping = Except.ok V2 from hok]
        at hsim
      exact hsim.elim
  | ok pr =>
      obtain ⟨σ2, H2⟩ := pr
      rw [hpl] at hsim
      rw [show pure_plug V controls mapping = Except.ok V2 from hok]
        at hsim
      rcases hsim with ⟨hres2, _, _, _⟩
      refine ⟨σ2, H2, V2, rfl, hres2, hok, ?_, ?_⟩
      · intro pairs2 hperm
        rw [purePlugLoop_perm hperm hvalid hcoh]
        exact hok
      · intro k c cm p1 p2 hc hm hp1 hp2
        have hmem : (c, cm) ∈ controls.zip mapping := zip_mem_of_get hc hm
        rcases goodIdx_iff.mp (hvalid (c, cm) hmem p1 hp1) with
          ⟨l1, hl1, h2l1⟩
        rcases goodIdx_iff.mp (hvalid (c, cm) hmem p2 hp2) with
          ⟨l2, hl2, h2l2⟩
        refine ⟨l1.set 1 c, l2.set 1 c,
          htar (c, cm) hmem p1 hp1 l1 hl1, ?_,
          htar (c, cm) hmem p2 hp2 l2 hl2, ?_⟩
        · have h1l : 1 < l1.length := h2l1
          rw [List.getElem?_set_self (by simpa using h1l)]
        · have h1l : 1 < l2.length := h2l2
          rw [List.getElem?_set_self (by simpa using h1l)]

/-- C7 witness: one control written at two positions of one structure. -/
theorem c7_witness :
    ∃ σ2 H2 V2,
      _plug_in_optimized_controls [[1, 2], [3, 4]]
        [HEntry.pair 0, HEntry.pair 1] [9] [[0, 1]] =
        Except.ok (σ2, H2) ∧
      resolveH σ2 H2 = some V2 ∧
      purePlugLoop [EVal.lst [1, 2], EVal.lst [3, 4]]
        (([9] : List Obj).zip ([[0, 1]] : List (List Nat))) =
        Except.ok V2 ∧
      (∀ pairs2 : List (Obj × List Nat),
        pairs2.Perm (([9] : List Obj).zip ([[0, 1]] : List (List Nat))) →
        purePlugLoop [EVal.lst [1, 2], EVal.lst [3, 4]] pairs2 =
          Except.ok V2) ∧
      (∀ (k : Nat) (c : Obj) (cm : List Nat) (p1 p2 : Nat),
        ([9] : List Obj)[k]? = some c →
        ([[0, 1]] : List (List Nat))[k]? = some cm →
        p1 ∈ cm → p2 ∈ cm →
        ∃ l1 l2, V2[p1]? = some (EVal.lst l1) ∧ l1[1]? = some c ∧
          V2[p2]? = some (EVal.lst l2) ∧ l2[1]? = some c) :=
  c7_order_independent (by rfl) (by decide) (by
    intro k k2 cm cm2 hne h1 h2 p hp
    have hk := getElem?_lt h1
    have hk2 := getElem?_lt h2
    simp only [List.length_cons, List.length_nil] at hk hk2
    exact absurd (by omega : k = k2) hne)

/-- C8: the summary rendering reports the iteration count as
`len(iters) - 1`; with `iters = [0]` (only the zero iteration, the initial
guess, recorded) it renders the count 0, not 1. -/
theorem c8_iteration_count (r : Result) (h : r.iters = [0]) :
    r.render =
      "Krotov Optimization Result\n--------------------------\n- Started at "
        ++ r.start_local_time_str
        ++ "\n- Number of objectives: " ++ toString r.objectives.length
        ++ "\n- Number of iterations: " ++ "0"
        ++ "\n- Ended at " ++ r.end_local_time_str := by
  unfold Result.render
  rw [h]
  rfl

/-- C8 witness: a result with only the zero iteration recorded reports 0
iterations in its summary. -/
theorem c8_witness :
    ({ Result.init with iters := [0] } : Result).render =
      "Krotov Optimization Result\n--------------------------\n- Started at n/a\n- Number of objectives: 0\n- Number of iterations: 0\n- Ended at n/a" := by
  rw [c8_iteration_count { Result.init with iters := [0] } rfl]
  rfl

/-- C9: the timestamp string properties never fail: an unset timestamp
renders as the literal marker, a set timestamp as the
`strftime`-formatted local time with pattern `%Y-%m-%d %H:%M:%S`. -/
theorem c9_time_str (r : Result) :
    Result.time_fmt = "%Y-%m-%d %H:%M:%S" ∧
    (r.start_local_time = none → r.start_local_time_str = "n/a") ∧
    (∀ t, r.start_local_time = some t →
      r.start_local_time_str = time_strftime t) ∧
    (r.end_local_time = none → r.end_local_time_str = "n/a") ∧
    (∀ t, r.end_local_time = some t →
      r.end_local_time_str = time_strftime t) := by
  refine ⟨rfl, ?_, ?_, ?_, ?_⟩
  · intro h
    unfold Result.start_local_time_str
    rw [h]
  · intro t h
    unfold Result.start_local_time_str
    rw [h]
  · intro h
    unfold Result.end_local_time_str
    rw [h]
  · intro t h
    unfold Result.end_local_time_str
    rw [h]

/-- C9 witness: an unset timestamp renders "n/a"; a set timestamp renders
in `YYYY-MM-DD HH:MM:SS` shape with zero padding. -/
theorem c9_witness :
    Result.init.start_local_time_str = "n/a" ∧
    ({ Result.init with
        end_local_time := some (StructTime.mk 2023 1 2 3 4 5) }
      : Result).end_local_time_str =
      time_strftime (StructTime.mk 2023 1 2 3 4 5) ∧
    time_strftime (StructTime.mk 2023 1 2 3 4 5) = "2023-01-02 03:04:05" :=
  ⟨(c9_time_str Result.init).2.1 rfl,
   (c9_time_str _).2.2.2.2 (StructTime.mk 2023 1 2 3 4 5) rfl,
   by rfl⟩

/-- C10: a freshly constructed Result has an empty iteration list and no
timestamps, and its summary rendering does not fail: it reports -1
iterations (the Python value of `len([]) - 1`), 0 objectives, and "n/a"
for both timestamps. -/
theorem c10_fresh_result_render :
    Result.init.iters = [] ∧
    Result.init.render =
      "Krotov Optimization Result\n--------------------------\n- Started at n/a\n- Number of objectives: 0\n- Number of iterations: -1\n- Ended at n/a" := by
  exact ⟨rfl, rfl⟩

end Krotov
